import Mathlib

/-!
tidb-binlog: pump storage slow chaser, value log, arbiter checkpoint

A shallow embedding of

* `pump/storage/chaser.go` (the slow chaser state machine),
* `arbiter/checkpoint.go` (the SQL-backed checkpoint),
* the value log and the value pointer codec that `pump/storage/vlog_test.go`
  exercises,

together with the properties established about them.
-/

namespace Storage

/-! ## Data model of package `storage` -/

/-- Modelled from the spec: the declaration of `valuePointer` is not part of
the sources at hand.  A value pointer is the stable locator
`(file_suffix: u64, offset: i64, length: u32)` of a record. -/
structure valuePointer where
  suffix : Nat
  offset : Int
  length : Nat
deriving DecidableEq, Repr

/-- Modelled from the spec: the declaration of `request` is not part of the
sources at hand.  The fields are the ones the chaser and the tests touch:
`startTS`, `commitTS`, `tp`, `payload` and the `valuePointer` filled in by
`vlog.write`. -/
structure request where
  startTS : Int
  commitTS : Int
  tp : Nat
  payload : List Nat
  valuePointer : valuePointer
deriving DecidableEq, Repr

/-- The two errors a `context.Context` can report. -/
inductive CtxErr where
  | Canceled
  | DeadlineExceeded
deriving DecidableEq, Repr

/-- Errors seen by the chaser: a context error, or an error raised by the
scanner itself (`errors.Trace` keeps the cause, so tracing is the identity
here). -/
inductive Error where
  | ctx (e : CtxErr)
  | scan (msg : String)
deriving DecidableEq, Repr

/-- `slowCatchUpThreshold = time.Second`, in nanoseconds. -/
def slowCatchUpThreshold : Int := 1000000000

/-- `recoveryCoolDown = time.Minute`, in nanoseconds. -/
def recoveryCoolDown : Int := 60000000000

/-- Largest `time.Duration`. -/
def maxDuration : Int := 2 ^ 63 - 1

/-- Smallest `time.Duration`. -/
def minDuration : Int := -(2 ^ 63)

/-- `time.Time.Sub`: the difference of two instants (nanoseconds since the
zero time), saturated to the range of `time.Duration`. -/
def timeSub (t u : Int) : Int :=
  if t - u > maxDuration then maxDuration
  else if t - u < minDuration then minDuration
  else t - u

/-- `time.Since(t)` evaluated at the instant `now`. -/
def timeSince (now t : Int) : Int := timeSub now t

/-- One execution of `valLogScanner.scanRequests(start, fn)`.  The scanner
is an interface, so its behaviour is a parameter: an execution hands the
requests `visits` to `fn` one after the other, stops at the first error `fn`
returns and returns that error, and otherwise ends with its own result
`err` (`none` for a clean end of log). -/
structure ScanRun where
  visits : List request
  err : Option Error

/-- The interface `valLogScanner`: what `scanRequests` does from a start
pointer. -/
abbrev valLogScanner := valuePointer → ScanRun

/-- Drive a callback over the requests of a scan: stop at the first error of
the callback, otherwise finish with the scanner's own result. -/
def scanLoop {σ : Type} (fn : σ → request → σ × Option Error) :
    List request → Option Error → σ → σ × Option Error
  | [], tail, s => (s, tail)
  | r :: rs, tail, s =>
    match fn s r with
    | (s1, some e) => (s1, some e)
    | (s1, none) => scanLoop fn rs tail s1

/-- A scanner over a log held as the list of its requests in append order:
the scan from `p` starts at the request located at `p`. -/
def scanFrom (log : List request) (p : valuePointer) : List request :=
  log.dropWhile (fun r => decide (r.valuePointer ≠ p))

/-- The scanner of a healthy log: visits everything from `p` on. -/
def logScanner (log : List request) : valLogScanner :=
  fun p => { visits := scanFrom log p, err := none }

/-- The scanner of a log that fails with `e` after handing out `n`
requests. -/
def failingLogScanner (log : List request) (n : Nat) (e : Error) : valLogScanner :=
  fun p => { visits := (scanFrom log p).take n, err := some e }

/-- A context as the chaser sees it in the `select` of the scan callback:
`doneAt k` is `some e` when, at the callback that follows `k` successful
sends, the `ctx.Done()` case is the one taken, `ctx.Err()` being `e`. -/
structure Context where
  doneAt : Nat → Option CtxErr

/-- A context that is never done. -/
def Context.background : Context := { doneAt := fun _ => none }

/-- A context that lets `n` sends through and is then done with `e`. -/
def Context.doneAfter (n : Nat) (e : CtxErr) : Context :=
  { doneAt := fun k => if k < n then none else some e }

/-- The struct `slowChaser`.  `output` is the history of the channel
`output`: the requests sent on it so far, oldest first.  `on_` is the field
`on` (a reserved word here).  `WriteLock` is
`true` while the mutex is held.  The scanner `vlog` is passed to the
operations that use it, since what a scan returns changes as the log
grows. -/
structure slowChaser where
  on_ : Int
  lastUnreadPtr : Option valuePointer
  recoveryTimeout : Int
  lastRecoverAttempt : Int
  output : List request
  WriteLock : Bool
deriving DecidableEq, Repr

/-- `newSlowChaser(vlog, recoveryTimeout, output)`: every other field has its
zero value. -/
def newSlowChaser (recoveryTimeout : Int) (output : List request) : slowChaser :=
  { on_ := 0, lastUnreadPtr := none, recoveryTimeout := recoveryTimeout,
    lastRecoverAttempt := 0, output := output, WriteLock := false }

/-- `slowChaser.IsOn`. -/
def slowChaser.IsOn (sc : slowChaser) : Bool := sc.on_ == 1

/-- `slowChaser.TurnOn(lastUnreadPtr)`; the argument is a pointer and may be
nil. -/
def slowChaser.TurnOn (sc : slowChaser) (lastUnreadPtr : Option valuePointer) : slowChaser :=
  { sc with lastUnreadPtr := lastUnreadPtr, on_ := 1 }

/-- `slowChaser.turnOff`. -/
def slowChaser.turnOff (sc : slowChaser) : slowChaser :=
  { sc with on_ := 0, lastUnreadPtr := none }

/-- The callback `catchUp` hands to `scanRequests`; the state is the chaser
and the local `count`. -/
def catchUpVisit (ctx : Context) (st : slowChaser × Nat) (req : request) :
    (slowChaser × Nat) × Option Error :=
  let sc1 := { st.1 with lastUnreadPtr := some req.valuePointer }
  match ctx.doneAt st.2 with
  | some e => ((sc1, st.2), some (Error.ctx e))
  | none => (({ sc1 with output := sc1.output ++ [req] }, st.2 + 1), none)

/-- `slowChaser.catchUp(ctx)`.  `none` is the panic of dereferencing a nil
`lastUnreadPtr`; otherwise the chaser after the scan and the error
returned. -/
def slowChaser.catchUp (sc : slowChaser) (vlog : valLogScanner) (ctx : Context) :
    Option (slowChaser × Option Error) :=
  match sc.lastUnreadPtr with
  | none => none
  | some p =>
    let res := scanLoop (catchUpVisit ctx) (vlog p).visits (vlog p).err (sc, 0)
    some (res.1.1, res.2)

/-- The environment of one `waitUntilTurnedOn` call: whether the context is
already done at the first `select`, and for the `k`-th round of the loop
what `IsOn()` reads and whether the `select` takes `ctx.Done()` rather than
the ticker. -/
structure WaitEnv where
  entryDone : Option CtxErr
  isOn : Nat → Bool
  roundDone : Nat → Option CtxErr

/-- The loop of `waitUntilTurnedOn` from round `k` on, run for at most
`fuel` rounds; `none` when the rounds are used up with the chaser still
off. -/
def waitLoop (env : WaitEnv) : Nat → Nat → Option (Option Error)
  | 0, _ => none
  | fuel + 1, k =>
    if env.isOn k then some none
    else
      match env.roundDone k with
      | some e => some (some (Error.ctx e))
      | none => waitLoop env fuel (k + 1)

/-- `slowChaser.waitUntilTurnedOn(ctx, checkInterval)`. -/
def waitUntilTurnedOn (env : WaitEnv) (fuel : Nat) : Option (Option Error) :=
  match env.entryDone with
  | some e => some (some (Error.ctx e))
  | none => waitLoop env fuel 0

/-- How one pass through the body of the loop of `Run` ends. -/
inductive IterResult where
  | waiting
  | quit
  | fatal
  | nilPtr
  | panicked
  | catchUpFailed
  | skipRecovery
  | recoverFailed
  | recovered
deriving DecidableEq, Repr

/-- What the surroundings contribute to one pass through the loop of `Run`:
the context as seen while waiting, the scanner and context of the first
`catchUp`, the four readings of the clock (`t0`, the two `time.Since` and
the new `lastRecoverAttempt`), and the scanner and timeout context of the
recovery `catchUp`. -/
structure IterEnv where
  waitEntryDone : Option CtxErr
  waitRoundDone : Nat → Option CtxErr
  waitFuel : Nat
  vlog1 : valLogScanner
  ctx : Context
  t0 : Int
  t1 : Int
  t2 : Int
  t3 : Int
  vlog2 : valLogScanner
  timeoutCtx : Context

/-- The recovery attempt of `Run`: from `sc.lastRecoverAttempt = time.Now()`
to the `Unlock` that ends it. -/
def slowChaser.recover (sc : slowChaser) (now : Int) (vlog : valLogScanner)
    (timeoutCtx : Context) : slowChaser × IterResult :=
  let sc1 := { sc with lastRecoverAttempt := now }
  let sc2 := { sc1 with WriteLock := true }
  match sc2.catchUp vlog timeoutCtx with
  | none => (sc2, IterResult.panicked)
  | some (sc3, some _) => ({ sc3 with WriteLock := false }, IterResult.recoverFailed)
  | some (sc3, none) => ({ sc3.turnOff with WriteLock := false }, IterResult.recovered)

/-- One pass through the body of the `for` loop of `slowChaser.Run`.  While
the chaser waits nobody else runs, so `IsOn()` reads the chaser's own
flag. -/
def slowChaser.runIter (sc : slowChaser) (env : IterEnv) : slowChaser × IterResult :=
  match waitUntilTurnedOn
      { entryDone := env.waitEntryDone, isOn := fun _ => sc.IsOn,
        roundDone := env.waitRoundDone } env.waitFuel with
  | none => (sc, IterResult.waiting)
  | some (some (Error.ctx _)) => (sc, IterResult.quit)
  | some (some (Error.scan _)) => (sc, IterResult.fatal)
  | some none =>
    if sc.lastUnreadPtr = none then (sc, IterResult.nilPtr)
    else
      match sc.catchUp env.vlog1 env.ctx with
      | none => (sc, IterResult.panicked)
      | some (sc1, some _) => (sc1, IterResult.catchUpFailed)
      | some (sc1, none) =>
        let tCatchUp := timeSince env.t1 env.t0
        let isSlowCatchUp := decide (tCatchUp ≥ slowCatchUpThreshold)
        let hasRecentRecoverAttempt :=
          decide (timeSince env.t2 sc1.lastRecoverAttempt ≤ recoveryCoolDown)
        if isSlowCatchUp || hasRecentRecoverAttempt then (sc1, IterResult.skipRecovery)
        else sc1.recover env.t3 env.vlog2 env.timeoutCtx

/-- The pointer a scan leaves behind: the one of the last request handed
to the callback, or the old one when there was none. -/
def ptrAfter (old : Option valuePointer) (vs : List request) : Option valuePointer :=
  vs.foldl (fun _ r => some r.valuePointer) old

/-- The steps a chaser is driven by: `TurnOn` (by the writer), `catchUp` and
`turnOff` (by `Run`). -/
inductive ChaserStep where
  | TurnOn (lastUnreadPtr : Option valuePointer)
  | catchUp (vlog : valLogScanner) (ctx : Context)
  | turnOff

/-- One step of a chaser; `none` when `catchUp` panics on a nil pointer. -/
def slowChaser.step (sc : slowChaser) : ChaserStep → Option slowChaser
  | ChaserStep.TurnOn p => some (sc.TurnOn p)
  | ChaserStep.catchUp vlog ctx => (sc.catchUp vlog ctx).map (fun r => r.1)
  | ChaserStep.turnOff => some sc.turnOff

/-- A sequence of steps, from left to right. -/
def slowChaser.steps (sc : slowChaser) : List ChaserStep → Option slowChaser
  | [] => some sc
  | st :: rest => (sc.step st).bind (fun sc1 => sc1.steps rest)

/-- Successive passes through the loop of `Run`. -/
def slowChaser.runIters (sc : slowChaser) (envs : List IterEnv) : slowChaser :=
  envs.foldl (fun s env => (s.runIter env).1) sc

/-- A scanner agrees with the log `L` when, from every pointer, it hands out
requests of `L` in append order starting at the request located there: all
of them, or only the first ones when the log was shorter at the time or the
scan broke off. -/
def AgreesWith (L : List request) (vlog : valLogScanner) : Prop :=
  ∀ p, (vlog p).visits <+: scanFrom L p

/-- Sample requests: three records appended one after the other. -/
def reqA : request :=
  { startTS := 1, commitTS := 0, tp := 0, payload := [1],
    valuePointer := { suffix := 0, offset := 0, length := 13 } }

/-- Second sample request. -/
def reqB : request :=
  { startTS := 2, commitTS := 0, tp := 0, payload := [2],
    valuePointer := { suffix := 0, offset := 13, length := 13 } }

/-- Third sample request. -/
def reqC : request :=
  { startTS := 3, commitTS := 0, tp := 0, payload := [3],
    valuePointer := { suffix := 0, offset := 26, length := 13 } }

/-- A pass through the loop of `Run` in which nothing goes wrong: the
context is never done, both scans read the log `L` to its end, the first
catch-up takes a nanosecond and the clock stands at `now`. -/
def quietIter (L : List request) (now : Int) : IterEnv :=
  { waitEntryDone := none, waitRoundDone := fun _ => none, waitFuel := 1,
    vlog1 := logScanner L, ctx := Context.background,
    t0 := now, t1 := now + 1, t2 := now + 1, t3 := now + 1,
    vlog2 := logScanner L, timeoutCtx := Context.background }

end Storage

namespace Storage

/-- A step is armed when, if it is a `TurnOn`, the pointer it passes is not
nil. -/
def ChaserStep.armed : ChaserStep → Prop
  | ChaserStep.TurnOn p => p ≠ none
  | _ => True

/-- A pass through the loop of `Run` whose first scan hands out two requests
of the log `L` and then breaks with an error of the scanner. -/
def brokenIter (L : List request) (now : Int) : IterEnv :=
  { waitEntryDone := none, waitRoundDone := fun _ => none, waitFuel := 1,
    vlog1 := failingLogScanner L 2 (Error.scan "read"), ctx := Context.background,
    t0 := now, t1 := now + 1, t2 := now + 1, t3 := now + 1,
    vlog2 := logScanner L, timeoutCtx := Context.background }

end Storage

namespace Storage

/-- A fresh chaser turned on at `reqA`. -/
def armedAtA : slowChaser := (newSlowChaser 5 []).TurnOn (some reqA.valuePointer)

end Storage

namespace Storage

/-- The history of sends with immediate repetitions collapsed. -/
def collapse (sent : List request) : List request :=
  sent.destutter Ne

/-- The state of a chaser that is working through the requests `S` (the log
from the pointer it was turned on with), `out0` being what `output` held
when it was turned on: what it has sent since is, repetitions collapsed,
the first `n` requests of `S`, and `lastUnreadPtr` is at the request of
index `k`, the last one sent (`n = k + 1`) or the next one (`n = k`). -/
def Chasing (S out0 : List request) (sc : slowChaser) : Prop :=
  ∃ (sent : List request) (n k : Nat) (r : request),
    sc.output = out0 ++ sent ∧ S[k]? = some r ∧
    sc.lastUnreadPtr = some r.valuePointer ∧
    collapse sent = S.take n ∧ (n = k ∨ n = k + 1)

end Storage

namespace Arbiter

/-! ## Package `arbiter`: the checkpoint -/

/-- `StatusNormal`. -/
def StatusNormal : Int := 0

/-- `StatusRunning`. -/
def StatusRunning : Int := 1

/-- The table `tidb_binlog.arbiter_checkpoint`: `topic_name` is its primary
key, so it is a map from topic names to the row `(ts, status)`. -/
abbrev Table := String → Option (Int × Int)

/-- The table without rows, as `createSchemaIfNeed` creates it. -/
def emptyTable : Table := fun _ => none

/-- What `database/sql` reports for a statement: `ErrNoRows`, or an error of
the driver. -/
inductive SqlError where
  | ErrNoRows
  | driver (msg : String)
deriving DecidableEq, Repr

/-- The text of an SQL error, `err.Error()`. -/
def SqlError.text : SqlError → String
  | SqlError.ErrNoRows => "sql: no rows in result set"
  | SqlError.driver msg => msg

/-- Errors of the checkpoint: what `errors.NotFoundf(format, args...)`
makes, `msg` being the formatted message, or an error that wraps an SQL
error and keeps it as its cause, with the message `errors.Annotatef` adds
(`errors.Trace` adds none). -/
inductive Error where
  | NotFound (msg : String)
  | wrapped (cause : SqlError) (note : String)
deriving DecidableEq, Repr

/-- The text of an error, `err.Error()`: `NotFoundf` appends `" not found"`
to its message, an annotation goes before the text of the cause, a trace
leaves the text as it is. -/
def Error.text : Error → String
  | Error.NotFound msg => msg ++ " not found"
  | Error.wrapped cause note =>
    if note = "" then cause.text else note ++ ": " ++ cause.text

/-- `errors.Cause`: the SQL error an error wraps, if it wraps one. -/
def Error.Cause : Error → Option SqlError
  | Error.NotFound _ => none
  | Error.wrapped cause _ => some cause

/-- `errors.IsNotFound`: the library tests the text of the error,
`strings.Contains(err.Error(), "not found")`. -/
def Error.IsNotFound (e : Error) : Bool :=
  decide ("not found".toList <:+: e.text.toList)

/-- The struct `dbCheckpoint`; the handle `db` is the table the operations
read and write, passed to them as an argument. -/
structure dbCheckpoint where
  database : String
  table : String
  topicName : String
deriving DecidableEq, Repr

/-- `NewCheckpoint(db, topicName)`, schema creation aside. -/
def NewCheckpoint (topicName : String) : dbCheckpoint :=
  { database := "tidb_binlog", table := "arbiter_checkpoint", topicName := topicName }

/-- `db.Exec("REPLACE INTO t(topic_name, ts, status) VALUES(?,?,?)", ...)`:
the driver fails with `fault` and leaves the table as it was, or the row of
the topic is replaced. -/
def execReplace (db : Table) (topic : String) (ts status : Int) (fault : Option String) :
    Table × Option SqlError :=
  match fault with
  | some msg => (db, some (SqlError.driver msg))
  | none => (fun t => if t = topic then some (ts, status) else db t, none)

/-- `db.QueryRow("SELECT ts, status FROM t WHERE topic_name = ?", ...)`
followed by `row.Scan(&ts, &status)`: the driver fails with `fault`, or
there is no row (`ErrNoRows`), or the row is read. -/
def queryRowScan (db : Table) (topic : String) (fault : Option String) :
    Except SqlError (Int × Int) :=
  match fault with
  | some msg => Except.error (SqlError.driver msg)
  | none =>
    match db topic with
    | none => Except.error SqlError.ErrNoRows
    | some row => Except.ok row

/-- `dbCheckpoint.Save(ts, status)`: the table afterwards and the error
returned. -/
def dbCheckpoint.Save (c : dbCheckpoint) (db : Table) (ts status : Int)
    (fault : Option String) : Table × Option Error :=
  match execReplace db c.topicName ts status fault with
  | (db1, some err) => (db1, some (Error.wrapped err "exec fail"))
  | (db1, none) => (db1, none)

/-- `dbCheckpoint.Load()`: `(ts, status, err)`. -/
def dbCheckpoint.Load (c : dbCheckpoint) (db : Table) (fault : Option String) :
    Int × Int × Option Error :=
  match queryRowScan db c.topicName fault with
  | Except.error err =>
    if err = SqlError.ErrNoRows then
      (0, 0, some (Error.NotFound ("no checkpoint for: " ++ c.topicName)))
    else (0, 0, some (Error.wrapped err ""))
  | Except.ok (ts, status) => (ts, status, none)

end Arbiter

namespace Storage

/-! ## The value pointer on the wire -/

/-- The `w` bytes of `n` modulo `256 ^ w`, most significant first
(`binary.BigEndian.PutUint64` for `w = 8`, `PutUint32` for `w = 4`). -/
def putBE : Nat → Nat → List Nat
  | 0, _ => []
  | w + 1, n => putBE w (n / 256) ++ [n % 256]

/-- The number a string of bytes spells, most significant first. -/
def getBE (bs : List Nat) : Nat := bs.foldl (fun acc b => acc * 256 + b) 0

/-- An `int64` seen as the `uint64` with the same bits. -/
def toUint64 (i : Int) : Nat := (i % 2 ^ 64).toNat

/-- A `uint64` seen as the `int64` with the same bits. -/
def toInt64 (n : Nat) : Int := if n < 2 ^ 63 then (n : Int) else (n : Int) - 2 ^ 64

/-- Modelled from the spec: the size of a marshalled value pointer,
`suffix: u64 | offset: i64 | length: u32`. -/
def valuePointerSize : Nat := 20

/-- The fields of a value pointer are within their machine types: `u64`,
`i64`, `u32`. -/
def valuePointer.InRange (vp : valuePointer) : Prop :=
  vp.suffix < 2 ^ 64 ∧ -(2 ^ 63) ≤ vp.offset ∧ vp.offset < 2 ^ 63 ∧ vp.length < 2 ^ 32

/-- Modelled from the spec: `valuePointer.MarshalBinary` is not part of the
sources at hand. The wire format is the fixed-size binary
`suffix: u64 BE | offset: i64 BE | length: u32 BE`; marshalling has no way
to fail. -/
def valuePointer.MarshalBinary (vp : valuePointer) : Except String (List Nat) :=
  Except.ok (putBE 8 vp.suffix ++ putBE 8 (toUint64 vp.offset) ++ putBE 4 vp.length)

/-- Modelled from the spec: `valuePointer.UnmarshalBinary` is not part of
the sources at hand. It reads back the three fields of the fixed-size
binary, and fails on data too short to hold them. -/
def valuePointer.UnmarshalBinary (data : List Nat) : Except String valuePointer :=
  if data.length < valuePointerSize then Except.error "not enough data"
  else
    Except.ok
      { suffix := getBE (data.take 8),
        offset := toInt64 (getBE ((data.drop 8).take 8)),
        length := getBE ((data.drop 16).take 4) }

end Storage

namespace Storage

/-! ## The value log -/

/-- The `w` bytes of `n` modulo `256 ^ w`, least significant first. -/
def putLE : Nat → Nat → List Nat
  | 0, _ => []
  | w + 1, n => (n % 256) :: putLE w (n / 256)

/-- The number a string of bytes spells, least significant first. -/
def getLE : List Nat → Nat
  | [] => 0
  | b :: bs => b + 256 * getLE bs

/-- The parameters of the record encoding: the magic number and the
checksum function, which the spec leaves open, and the width in bytes of
the payload length field, which the spec fixes at 4
(`magic:u32 | payload_len:u32 | crc32:u32`, a header of 12 bytes) and which
is kept as a parameter so that what is proved of the log does not depend on
it. -/
structure Codec where
  magic : Nat
  crc32 : List Nat → Nat
  lenWidth : Nat

/-- Modelled from the spec: the constant `headerLength` is not part of the
sources at hand. The header is `magic:u32 | payload_len | crc32:u32`. -/
def Codec.headerLength (cd : Codec) : Nat := 4 + cd.lenWidth + 4

/-- Errors of the value log. -/
inductive VlogError where
  | IOError
  | NoSpace
  | NotFound
  | Corrupt
  | CorruptTail
deriving DecidableEq, Repr

/-- Modelled from the spec: the encoding of a record is not part of the
sources at hand. Per record: `magic:u32 LE | payload_len LE |
crc32:u32 LE | payload`, the checksum being computed over the payload. -/
def encodeRecord (cd : Codec) (payload : List Nat) : List Nat :=
  putLE 4 cd.magic ++ putLE cd.lenWidth payload.length ++ putLE 4 (cd.crc32 payload) ++
    payload

/-- Modelled from the spec: decoding is not part of the sources at hand.
Read a header and the payload it announces from the front of `bytes`; a
short read, a wrong magic number and a checksum mismatch are all
`Corrupt`. -/
def decodeRecord (cd : Codec) (bytes : List Nat) : Except VlogError (List Nat) :=
  if bytes.length < cd.headerLength then Except.error VlogError.Corrupt
  else if getLE (bytes.take 4) ≠ cd.magic % 2 ^ 32 then Except.error VlogError.Corrupt
  else if (bytes.drop cd.headerLength).length < getLE ((bytes.drop 4).take cd.lenWidth) then
    Except.error VlogError.Corrupt
  else if getLE ((bytes.drop (4 + cd.lenWidth)).take 4) ≠
      cd.crc32 ((bytes.drop cd.headerLength).take
        (getLE ((bytes.drop 4).take cd.lenWidth))) % 2 ^ 32 then
    Except.error VlogError.Corrupt
  else Except.ok ((bytes.drop cd.headerLength).take (getLE ((bytes.drop 4).take cd.lenWidth)))

/-- A segment file of the value log: its numeric suffix, its bytes, and the
commit timestamps of the records it holds. -/
structure segment where
  suffix : Nat
  data : List Nat
  commitTSs : List Int
deriving DecidableEq, Repr

/-- The options of the value log that matter here. -/
structure Options where
  valueLogFileSize : Nat
deriving DecidableEq, Repr

/-- Modelled from the spec: the struct `valueLog` is not part of the
sources at hand. The log is its directory: the segment being written to
(the newest) and the older, read-only segments, newest first. -/
structure valueLog where
  cur : segment
  old : List segment
  opt : Options
deriving DecidableEq, Repr

/-- The segment files of the log, newest first. -/
def valueLog.files (vlog : valueLog) : List segment := vlog.cur :: vlog.old

/-- The replay of a segment at open: read records forward from `off`,
stop at the first one that does not decode; the result is the offset where
the valid records end. -/
def replayFrom (cd : Codec) (data : List Nat) : Nat → Nat → Nat
  | 0, off => off
  | fuel + 1, off =>
    match decodeRecord cd (data.drop off) with
    | Except.ok payload => replayFrom cd data fuel (off + cd.headerLength + payload.length)
    | Except.error _ => off

/-- The replay of a whole segment; a record takes at least a header, so
there are fewer records than bytes. -/
def replay (cd : Codec) (data : List Nat) : Nat :=
  replayFrom cd data (data.length + 1) 0

/-- Modelled from the spec: `newValueLog(dir, options)` is not part of the
sources at hand. Open the directory (its segments, newest first): on an
empty one create segment 0, otherwise replay the newest segment and
truncate it where its valid records end. -/
def newValueLog (cd : Codec) (dir : List segment) (opt : Options) : valueLog :=
  match dir with
  | [] => { cur := { suffix := 0, data := [], commitTSs := [] }, old := [], opt := opt }
  | s :: rest =>
    { cur := { s with data := s.data.take (replay cd s.data) }, old := rest, opt := opt }

/-- Modelled from the spec: `valueLog.close`; what stays is the
directory. -/
def valueLog.close (vlog : valueLog) : List segment := vlog.files

/-- The rotation before a write: when the newest segment has reached the
size cap, and creating a file works, a new empty segment with the next
suffix becomes the newest. -/
def valueLog.rotate (vlog : valueLog) (canCreate : Bool) : valueLog :=
  if vlog.opt.valueLogFileSize ≤ vlog.cur.data.length ∧ canCreate = true then
    { vlog with
        cur := { suffix := vlog.cur.suffix + 1, data := [], commitTSs := [] },
        old := vlog.cur :: vlog.old }
  else vlog

/-- The buffer a batch serializes to. -/
def encodeBatch (cd : Codec) : List request → List Nat
  | [] => []
  | r :: rs => encodeRecord cd r.payload ++ encodeBatch cd rs

/-- The requests of a batch with their value pointers populated:
`(suffix, offset before the record, encoded length)`. -/
def assignPointers (cd : Codec) (suffix : Nat) : Nat → List request → List request
  | _, [] => []
  | off, r :: rs =>
    { r with valuePointer :=
        { suffix := suffix, offset := (off : Int),
          length := (cd.headerLength + r.payload.length) % 2 ^ 32 } } ::
      assignPointers cd suffix (off + cd.headerLength + r.payload.length) rs

/-- Modelled from the spec: `valueLog.write(batch)` is not part of the
sources at hand. A write that fails (`fault`) leaves the segment at its
length before the write and the requests untouched. A write that succeeds
first rotates if the newest segment has reached the cap, then appends the
whole batch to the newest segment in one buffer and populates the value
pointers. The result is the log, the batch and the error. -/
def valueLog.write (cd : Codec) (vlog : valueLog) (batch : List request)
    (fault : Option VlogError) (canCreate : Bool) :
    valueLog × List request × Option VlogError :=
  match fault with
  | some e => (vlog, batch, some e)
  | none =>
    let v1 := vlog.rotate canCreate
    ({ v1 with
        cur := { v1.cur with
          data := v1.cur.data ++ encodeBatch cd batch,
          commitTSs := v1.cur.commitTSs ++ batch.map (fun r => r.commitTS) } },
      assignPointers cd v1.cur.suffix v1.cur.data.length batch, none)

/-- Modelled from the spec: `valueLog.readValue(vp)` is not part of the
sources at hand. Open the addressed segment, read header and payload at
the offset, verify the checksum, return the payload; `NotFound` when the
segment is gone. -/
def valueLog.readValue (cd : Codec) (vlog : valueLog) (vp : valuePointer) :
    Except VlogError (List Nat) :=
  match vlog.files.find? (fun s => decide (s.suffix = vp.suffix)) with
  | none => Except.error VlogError.NotFound
  | some s =>
    if vp.offset < 0 then Except.error VlogError.Corrupt
    else decodeRecord cd (s.data.drop vp.offset.toNat)

/-- Modelled from the spec: `valueLog.gcTS(safe_ts)` is not part of the
sources at hand. Delete every segment, the newest excepted, all of whose
records have a commit timestamp at most `safe_ts`. -/
def valueLog.gcTS (vlog : valueLog) (safeTS : Int) : valueLog :=
  { vlog with
      old := vlog.old.filter
        (fun s => !(s.commitTSs.all (fun ts => decide (ts ≤ safeTS)))) }

/-- What happens to a value log: a write, a close followed by an open of
the same directory, a garbage collection. -/
inductive VlogOp where
  | write (batch : List request) (fault : Option VlogError) (canCreate : Bool)
  | reopen
  | gcTS (safeTS : Int)

/-- A payload fits the encoding: its length fits the length field of the
header, and the encoded length fits the `u32` of the value pointer. -/
def Encodable (cd : Codec) (payload : List Nat) : Prop :=
  cd.headerLength + payload.length < 2 ^ 32 ∧ payload.length < 256 ^ cd.lenWidth

/-- An operation writes only records that fit the encoding. -/
def VlogOp.Encodable (cd : Codec) : VlogOp → Prop
  | VlogOp.write batch _ _ => ∀ r, r ∈ batch → Storage.Encodable cd r.payload
  | _ => True

/-- One operation on the log. -/
def valueLog.apply (cd : Codec) (vlog : valueLog) : VlogOp → valueLog
  | VlogOp.write batch fault canCreate => (vlog.write cd batch fault canCreate).1
  | VlogOp.reopen => newValueLog cd vlog.close vlog.opt
  | VlogOp.gcTS safeTS => vlog.gcTS safeTS

/-- A sequence of operations, from left to right. -/
def valueLog.run (cd : Codec) (vlog : valueLog) (ops : List VlogOp) : valueLog :=
  ops.foldl (fun v op => v.apply cd op) vlog

/-- The bytes `data` are the encodings of payloads that fit, one after the
other. -/
def Parsed (cd : Codec) (data : List Nat) : Prop :=
  ∃ ps : List (List Nat), (∀ p, p ∈ ps → Encodable cd p) ∧
    data = (ps.map (encodeRecord cd)).flatten

/-- A log in good order: the suffixes decrease from the newest segment to
the oldest, and the newest segment holds whole records only. -/
def valueLog.WellFormed (cd : Codec) (vlog : valueLog) : Prop :=
  (vlog.files.map (fun s => s.suffix)).Pairwise (fun a b => b < a) ∧
    Parsed cd vlog.cur.data

/-- The record `payload` sits where `vp` points, in every segment that
bears the suffix of `vp`, and no segment to come will bear that suffix. -/
def valueLog.Holds (cd : Codec) (vlog : valueLog) (vp : valuePointer)
    (payload : List Nat) : Prop :=
  vp.suffix ≤ vlog.cur.suffix ∧
    ∀ s, s ∈ vlog.files → s.suffix = vp.suffix →
      0 ≤ vp.offset ∧ decodeRecord cd (s.data.drop vp.offset.toNat) = Except.ok payload

/-- A sample codec with the header of the spec: magic number `0x12345678`,
the sum of the bytes as checksum, a length field of 4 bytes. -/
def sampleCodec : Codec := { magic := 305419896, crc32 := fun p => p.sum, lenWidth := 4 }

/-- The payload `TestNoSpace` writes: `make([]byte, 1024)`. -/
def noSpacePayload : List Nat := List.replicate 1024 0

/-- The request `TestNoSpace` writes. -/
def noSpaceRequest : request :=
  { startTS := 0, commitTS := 0, tp := 0, payload := noSpacePayload,
    valuePointer := { suffix := 0, offset := 0, length := 0 } }

end Storage

namespace Storage

/-- A value log with a history: opened on an empty directory, then taken
through the operations `ops`. -/
def logAfter (cd : Codec) (opt : Options) (ops : List VlogOp) : valueLog :=
  (newValueLog cd [] opt).run cd ops

end Storage

namespace Storage

/-- What follows the sample write: the log is closed and opened again, a
further batch is appended (the first segment has reached the cap of 20
bytes, so it goes to a new one), and a collection that removes nothing
runs. -/
def sampleAfter : List VlogOp :=
  [VlogOp.reopen, VlogOp.write [reqC] none true, VlogOp.gcTS (-1)]

end Storage

namespace Storage

/-- The chaser `armedAtA` after a `catchUp` over the log `[reqA, reqB]`. -/
def caughtUpAtB : slowChaser :=
  { on_ := 1, lastUnreadPtr := some reqB.valuePointer, recoveryTimeout := 5,
    lastRecoverAttempt := 0, output := [reqA, reqB], WriteLock := false }

/-- A pass through the loop of `Run` like `quietIter`, but whose first
catch-up takes two seconds. -/
def slowIter (L : List request) (now : Int) : IterEnv :=
  { quietIter L now with t1 := now + 2000000000 }

end Storage

namespace Arbiter

/-! ## Package `arbiter`: the configuration -/

/-- `defaultKafkaAddrs`. -/
def defaultKafkaAddrs : String := "127.0.0.1:9092"

/-- `defaultKafkaVersion`. -/
def defaultKafkaVersion : String := "0.8.2.0"

/-- The struct `Metrics`. -/
structure Metrics where
  Addr : String
  Interval : Int
deriving DecidableEq, Repr

/-- The struct `UpConfig`. -/
structure UpConfig where
  KafkaAddrs : String
  KafkaVersion : String
  InitialCommitTS : Int
  Topic : String
  MessageBufferSize : Int
  SaramaBufferSize : Int
deriving DecidableEq, Repr

/-- The struct `DownConfig`. -/
structure DownConfig where
  Host : String
  Port : Int
  User : String
  Password : String
  WorkerCount : Int
  BatchSize : Int
  SafeMode : Bool
deriving DecidableEq, Repr

/-- The struct `Config`; the embedded `*flag.FlagSet` is kept as the
identity of the flag set it points to. -/
structure Config where
  FlagSet : Option Nat
  LogLevel : String
  ListenAddr : String
  LogFile : String
  OpenSaramaLog : Bool
  Up : UpConfig
  Down : DownConfig
  Metrics : Metrics
  configFile : String
  printVersion : Bool
deriving DecidableEq, Repr

/-- `Config.adjustConfig`: the configuration afterwards and the error
returned. -/
def Config.adjustConfig (cfg : Config) : Config × Option String :=
  let cfg1 :=
    if cfg.Up.KafkaAddrs.length = 0 then
      { cfg with Up := { cfg.Up with KafkaAddrs := defaultKafkaAddrs } }
    else cfg
  let cfg2 :=
    if cfg1.Up.KafkaVersion.length = 0 then
      { cfg1 with Up := { cfg1.Up with KafkaVersion := defaultKafkaVersion } }
    else cfg1
  let cfg3 :=
    if cfg2.Down.Host.length = 0 then
      { cfg2 with Down := { cfg2.Down with Host := "localhost" } }
    else cfg2
  let cfg4 :=
    if cfg3.Down.Port = 0 then { cfg3 with Down := { cfg3.Down with Port := 3306 } }
    else cfg3
  let cfg5 :=
    if cfg4.Down.User.length = 0 then
      { cfg4 with Down := { cfg4.Down with User := "root" } }
    else cfg4
  (cfg5, none)

end Arbiter

namespace Syncer

/-! ## Package `syncer`: the print syncer -/

/-- `pb.BinlogType`: the two types of the protocol, and any other value of
the enumeration. -/
inductive BinlogType where
  | DML
  | DDL
  | unknown (n : Int)
deriving DecidableEq, Repr

/-- `pb.EventType`: the three types `printEvent` knows, and any other
value. -/
inductive EventType where
  | Insert
  | Update
  | Delete
  | unknown (n : Int)
deriving DecidableEq, Repr

/-- `pb.EventType.String`. -/
def EventType.String : EventType → String
  | EventType.Insert => "Insert"
  | EventType.Update => "Update"
  | EventType.Delete => "Delete"
  | EventType.unknown n => toString n

/-- `pb.Column`. -/
structure Column where
  Name : String
  Tp : List Nat
  MysqlType : String
  Value : List Nat
  ChangedValue : List Nat
deriving DecidableEq, Repr

/-- `pb.Event`; `Row` holds the marshalled columns. -/
structure Event where
  SchemaName : String
  TableName : String
  Tp : EventType
  Row : List (List Nat)
deriving DecidableEq, Repr

/-- `pb.Binlog`; `DmlData` is nil (`none`) or the events it holds. -/
structure Binlog where
  Tp : BinlogType
  DmlData : Option (List Event)
  DdlQuery : String
deriving DecidableEq, Repr

/-- `pbBinlog.GetDmlData().GetEvents()`: both getters accept nil. -/
def Binlog.GetEvents (b : Binlog) : List Event :=
  match b.DmlData with
  | none => []
  | some events => events

/-- What the printers call and is not defined in `print.go`: the libraries
`pb.Column.Unmarshal` and `codec.DecodeOne` (of which only the datum is
used), and the package's `formatValueToString`. They are parameters. -/
structure Libs where
  Unmarshal : List Nat → Except String Column
  DecodeOne : List Nat → Except String String
  formatValueToString : String → Nat → String

/-- How a Go function ends: it returns, or it panics. -/
inductive Outcome (α : Type) where
  | returned (a : α)
  | panicked (msg : String)
deriving DecidableEq, Repr

/-- `printInsertOrDeleteEvent(row)`: the lines printed, and the error
returned (`none` for nil). `col.Tp[0]` panics on an empty `Tp`. -/
def printInsertOrDeleteEvent (libs : Libs) :
    List (List Nat) → List String × Outcome (Option String)
  | [] => ([], Outcome.returned none)
  | c :: rest =>
    match libs.Unmarshal c with
    | Except.error e => ([], Outcome.returned (some ("unmarshal failed: " ++ e)))
    | Except.ok col =>
      match libs.DecodeOne col.Value with
      | Except.error e => ([], Outcome.returned (some ("decode row failed: " ++ e)))
      | Except.ok val =>
        match col.Tp with
        | [] => ([], Outcome.panicked "index out of range [0] with length 0")
        | tp :: _ =>
          let line := col.Name ++ "(" ++ col.MysqlType ++ "): " ++
            libs.formatValueToString val tp
          let res := printInsertOrDeleteEvent libs rest
          (line :: res.1, res.2)

/-- `printUpdateEvent(row)`. -/
def printUpdateEvent (libs : Libs) :
    List (List Nat) → List String × Outcome (Option String)
  | [] => ([], Outcome.returned none)
  | c :: rest =>
    match libs.Unmarshal c with
    | Except.error e => ([], Outcome.returned (some ("unmarshal failed: " ++ e)))
    | Except.ok col =>
      match libs.DecodeOne col.Value with
      | Except.error e => ([], Outcome.returned (some ("decode row failed: " ++ e)))
      | Except.ok val =>
        match libs.DecodeOne col.ChangedValue with
        | Except.error e => ([], Outcome.returned (some ("decode row failed: " ++ e)))
        | Except.ok changedVal =>
          match col.Tp with
          | [] => ([], Outcome.panicked "index out of range [0] with length 0")
          | tp :: _ =>
            let line := col.Name ++ "(" ++ col.MysqlType ++ "): " ++
              libs.formatValueToString val tp ++ " => " ++
              libs.formatValueToString changedVal tp
            let res := printUpdateEvent libs rest
            (line :: res.1, res.2)

/-- What a printer leaves behind: the lines on standard output and the
errors logged. -/
structure Printed where
  stdout : List String
  logged : List String
deriving DecidableEq, Repr

/-- `printEvent(event)`: the header, then the row by the type of the event;
an error of the row printer is logged, not returned. -/
def printEvent (libs : Libs) (event : Event) : Printed × Outcome Unit :=
  let header := "schema: " ++ event.SchemaName ++ "; table: " ++ event.TableName ++
    "; type: " ++ event.Tp.String
  let finish (what : String) (res : List String × Outcome (Option String)) :
      Printed × Outcome Unit :=
    match res.2 with
    | Outcome.panicked msg =>
      ({ stdout := header :: res.1, logged := [] }, Outcome.panicked msg)
    | Outcome.returned (some err) =>
      ({ stdout := header :: res.1, logged := [what ++ ": " ++ err] }, Outcome.returned ())
    | Outcome.returned none =>
      ({ stdout := header :: res.1, logged := [] }, Outcome.returned ())
  match event.Tp with
  | EventType.Insert =>
    finish "print insert event failed" (printInsertOrDeleteEvent libs event.Row)
  | EventType.Update => finish "print update event failed" (printUpdateEvent libs event.Row)
  | EventType.Delete =>
    finish "print delete event failed" (printInsertOrDeleteEvent libs event.Row)
  | EventType.unknown _ => ({ stdout := [header], logged := [] }, Outcome.returned ())

/-- The loop of `Sync` over the events of a DML binlog. -/
def printEvents (libs : Libs) : List Event → Printed × Outcome Unit
  | [] => ({ stdout := [], logged := [] }, Outcome.returned ())
  | event :: rest =>
    match printEvent libs event with
    | (p, Outcome.panicked msg) => (p, Outcome.panicked msg)
    | (p, Outcome.returned ()) =>
      let res := printEvents libs rest
      ({ stdout := p.stdout ++ res.1.stdout, logged := p.logged ++ res.1.logged }, res.2)

/-- What a call of `Sync` does: what it prints and logs, the binlogs the
callback `cb` was invoked with, in order, and how it ends: returning an
error (`none` for nil) or panicking. -/
structure SyncResult where
  printed : Printed
  cbCalls : List Binlog
  outcome : Outcome (Option String)
deriving DecidableEq, Repr

/-- `printSyncer.Sync(pbBinlog, cb)`. -/
def Sync (libs : Libs) (pbBinlog : Binlog) : SyncResult :=
  match pbBinlog.Tp with
  | BinlogType.DDL =>
    { printed := { stdout := ["DDL query: " ++ pbBinlog.DdlQuery], logged := [] },
      cbCalls := [pbBinlog], outcome := Outcome.returned none }
  | BinlogType.DML =>
    match printEvents libs pbBinlog.GetEvents with
    | (p, Outcome.panicked msg) =>
      { printed := p, cbCalls := [], outcome := Outcome.panicked msg }
    | (p, Outcome.returned ()) =>
      { printed := p, cbCalls := [pbBinlog], outcome := Outcome.returned none }
  | BinlogType.unknown n =>
    { printed := { stdout := [], logged := [] }, cbCalls := [],
      outcome := Outcome.returned (some ("unknown type: " ++ toString n)) }

/-- The libraries on the one column used below: the bytes `22 01 00` are
the protocol buffer of a column whose only field is `value = 00`, and `00`
is the encoding of NULL. -/
def sampleLibs : Libs :=
  { Unmarshal := fun c =>
      if c = [34, 1, 0] then
        Except.ok { Name := "", Tp := [], MysqlType := "", Value := [0], ChangedValue := [] }
      else Except.error "unexpected EOF",
    DecodeOne := fun v => if v = [0] then Except.ok "NULL" else Except.error "invalid encoded key",
    formatValueToString := fun val _ => val }

/-- A DML binlog with one insert event whose row is the one column
`22 01 00`: a column with a value and without a type. -/
def untypedInsert : Binlog :=
  { Tp := BinlogType.DML,
    DmlData := some [{ SchemaName := "test", TableName := "t", Tp := EventType.Insert,
                       Row := [[34, 1, 0]] }],
    DdlQuery := "" }

end Syncer

namespace Relay

/-! ## Package `relay`: the relayer -/

/-- Modelled from the spec: the relay position `(suffix: u64, offset: i64)`
is not declared in the sources at hand. -/
structure Position where
  Suffix : Nat
  Offset : Int
deriving DecidableEq, Repr

/-- A relay segment file: its suffix and its bytes. -/
structure segment where
  suffix : Nat
  data : List Nat
deriving DecidableEq, Repr

/-- Modelled from the spec: the relayer is not part of the sources at hand
(only `relayer_test.go` is). It is its directory, the segment being written
and the older ones, newest first, with the size cap of a segment. -/
structure Relayer where
  cur : segment
  old : List segment
  segmentSize : Nat
deriving DecidableEq, Repr

/-- Modelled from the spec: `NewRelayer(dir, segment_size_bytes,
translator)` on a directory that exists and is writable creates the first
segment. -/
def NewRelayer (segmentSize : Nat) : Relayer :=
  { cur := { suffix := 0, data := [] }, old := [], segmentSize := segmentSize }

/-- Modelled from the spec: `WriteBinlog`, given the bytes the translator
made of the binlog: append them to the current segment, rotate if its size
exceeds the cap after the write, and return the position of the record, the
suffix of the segment it went to and the offset where it ends. -/
def Relayer.WriteBinlog (r : Relayer) (record : List Nat) : Relayer × Position :=
  let seg : segment := { r.cur with data := r.cur.data ++ record }
  let pos : Position := { Suffix := seg.suffix, Offset := (seg.data.length : Int) }
  if r.segmentSize < seg.data.length then
    ({ r with cur := { suffix := seg.suffix + 1, data := [] }, old := seg :: r.old }, pos)
  else ({ r with cur := seg }, pos)

/-- Modelled from the spec: `GCBinlog(pos)` removes the segments strictly
before `pos.Suffix`; the segment being written is never removed. As
`TestGCBinlog` observes, the files are gone when it returns. -/
def Relayer.GCBinlog (r : Relayer) (pos : Position) : Relayer :=
  { r with old := r.old.filter (fun s => decide (pos.Suffix ≤ s.suffix)) }

/-- Modelled from the spec: `binlogfile.ReadBinlogNames(dir)` lists the
segment files in ascending suffix order; a name is given by its suffix. -/
def ReadBinlogNames (r : Relayer) : List Nat :=
  ((r.cur :: r.old).map (fun s => s.suffix)).reverse

/-- A sequence of writes. -/
def Relayer.writeAll (r : Relayer) : List (List Nat) → Relayer
  | [] => r
  | record :: rest => (r.WriteBinlog record).1.writeAll rest

/-- The translation of a DDL binlog: twenty bytes, more than the cap of
ten of `TestGCBinlog`. -/
def sampleDDL : List Nat := List.replicate 20 1

end Relay

namespace Storage

/-- A fresh value log with the default segment cap of 1 GiB. -/
def noSpaceLog : valueLog := logAfter sampleCodec { valueLogFileSize := 1073741824 } []

end Storage

/-! # Properties -/

namespace Storage

/-! ## The scan callback -/

theorem ptrAfter_cons (old : Option valuePointer) (r : request) (vs : List request) :
    ptrAfter old (r :: vs) = ptrAfter (some r.valuePointer) vs := rfl

theorem ptrAfter_append_singleton (old : Option valuePointer) (vs : List request)
    (r : request) : ptrAfter old (vs ++ [r]) = some r.valuePointer := by
  simp [ptrAfter, List.foldl_append]

theorem ptrAfter_eq_getLast (old : Option valuePointer) (vs : List request)
    (hne : vs ≠ []) : ptrAfter old vs = vs.getLast?.map (fun r => r.valuePointer) := by
  obtain ⟨ys, y, rfl⟩ : ∃ ys y, vs = ys ++ [y] :=
    ⟨vs.dropLast, vs.getLast hne, (List.dropLast_append_getLast hne).symm⟩
  simp [ptrAfter_append_singleton]

theorem scanLoop_run (ctx : Context) (tail : Option Error) :
    ∀ (vs : List request) (sc : slowChaser) (c : Nat),
      (∀ j, j < vs.length → ctx.doneAt (c + j) = none) →
      scanLoop (catchUpVisit ctx) vs tail (sc, c) =
        (({ sc with lastUnreadPtr := ptrAfter sc.lastUnreadPtr vs,
                    output := sc.output ++ vs }, c + vs.length), tail) := by
  intro vs
  induction vs with
  | nil => intro sc c _; simp [scanLoop, ptrAfter]
  | cons r rs ih =>
    intro sc c h
    have h0 : ctx.doneAt c = none := by simpa using h 0 (by simp)
    have hrest : ∀ j, j < rs.length → ctx.doneAt (c + 1 + j) = none := by
      intro j hj
      have := h (j + 1) (by simp; omega)
      rw [show c + 1 + j = c + (j + 1) by omega]; exact this
    simp only [scanLoop, catchUpVisit, h0]
    rw [ih _ _ hrest]
    simp [ptrAfter_cons, Nat.add_assoc, Nat.add_comm 1]

theorem scanLoop_cancel (ctx : Context) (tail : Option Error) :
    ∀ (vs : List request) (sc : slowChaser) (c k : Nat) (e : CtxErr) (r : request),
      vs[k]? = some r →
      (∀ j, j < k → ctx.doneAt (c + j) = none) →
      ctx.doneAt (c + k) = some e →
      scanLoop (catchUpVisit ctx) vs tail (sc, c) =
        (({ sc with lastUnreadPtr := some r.valuePointer,
                    output := sc.output ++ vs.take k }, c + k), some (Error.ctx e)) := by
  intro vs
  induction vs with
  | nil => intro sc c k e r hr; simp at hr
  | cons a as ih =>
    intro sc c k e r hr h he
    cases k with
    | zero =>
      simp at hr; subst hr
      simp at he
      simp [scanLoop, catchUpVisit, he]
    | succ k =>
      have h0 : ctx.doneAt c = none := by simpa using h 0 (by omega)
      simp at hr
      have hrest : ∀ j, j < k → ctx.doneAt (c + 1 + j) = none := by
        intro j hj
        have := h (j + 1) (by omega)
        rw [show c + 1 + j = c + (j + 1) by omega]; exact this
      have he2 : ctx.doneAt (c + 1 + k) = some e := by
        rw [show c + 1 + k = c + (k + 1) by omega]; exact he
      simp only [scanLoop, catchUpVisit, h0]
      rw [ih _ _ k e r hr hrest he2]
      simp [Nat.add_assoc, Nat.add_comm 1]

/-- A context lets the first `m` sends through, or there is a first send
among them at which it is done. -/
theorem ctx_cases (ctx : Context) (m : Nat) :
    (∀ j, j < m → ctx.doneAt j = none) ∨
      ∃ k e, k < m ∧ (∀ j, j < k → ctx.doneAt j = none) ∧ ctx.doneAt k = some e := by
  induction m with
  | zero => left; intro j hj; omega
  | succ m ih =>
    rcases ih with h | ⟨k, e, hk, hlt, he⟩
    · cases hm : ctx.doneAt m with
      | none =>
        left; intro j hj
        rcases Nat.lt_succ_iff_lt_or_eq.mp hj with h1 | h1
        · exact h j h1
        · rw [h1]; exact hm
      | some e => right; exact ⟨m, e, Nat.lt_succ_self m, h, hm⟩
    · right; exact ⟨k, e, Nat.lt_succ_of_lt hk, hlt, he⟩

theorem catchUp_run (sc : slowChaser) (p : valuePointer) (vlog : valLogScanner)
    (ctx : Context) (hp : sc.lastUnreadPtr = some p)
    (h : ∀ j, j < (vlog p).visits.length → ctx.doneAt j = none) :
    sc.catchUp vlog ctx =
      some ({ sc with lastUnreadPtr := ptrAfter (some p) (vlog p).visits,
                      output := sc.output ++ (vlog p).visits }, (vlog p).err) := by
  have h2 : ∀ j, j < (vlog p).visits.length → ctx.doneAt (0 + j) = none := by
    intro j hj; rw [Nat.zero_add]; exact h j hj
  simp only [slowChaser.catchUp, hp]
  rw [scanLoop_run ctx _ _ sc 0 h2, hp]

theorem catchUp_cancel (sc : slowChaser) (p : valuePointer) (vlog : valLogScanner)
    (ctx : Context) (k : Nat) (e : CtxErr) (r : request)
    (hp : sc.lastUnreadPtr = some p) (hr : (vlog p).visits[k]? = some r)
    (h : ∀ j, j < k → ctx.doneAt j = none) (he : ctx.doneAt k = some e) :
    sc.catchUp vlog ctx =
      some ({ sc with lastUnreadPtr := some r.valuePointer,
                      output := sc.output ++ (vlog p).visits.take k },
            some (Error.ctx e)) := by
  have h2 : ∀ j, j < k → ctx.doneAt (0 + j) = none := by
    intro j hj; rw [Nat.zero_add]; exact h j hj
  have he2 : ctx.doneAt (0 + k) = some e := by rw [Nat.zero_add]; exact he
  simp only [slowChaser.catchUp, hp]
  rw [scanLoop_cancel ctx _ _ sc 0 k e r hr h2 he2]

end Storage

namespace Storage

/-! ## catchUp -/

/-- C3, as stated, fails: the scan hands out `reqA` and `reqB`, the context
is cancelled at the second callback. `catchUp` returns with `reqA` the only
request sent, and `lastUnreadPtr` at `reqB`, which was not sent. -/
theorem catchUp_cancelled_ptr_not_last_sent :
    (((newSlowChaser 0 []).TurnOn (some reqA.valuePointer)).catchUp
        (logScanner [reqA, reqB]) (Context.doneAfter 1 CtxErr.Canceled)).map
      (fun r => (r.1.output, r.1.lastUnreadPtr, r.2))
      = some ([reqA], some reqB.valuePointer, some (Error.ctx CtxErr.Canceled))
    ∧ reqB.valuePointer ≠ reqA.valuePointer := by
  constructor
  · rfl
  · decide

/-- C3 (amended): a `catchUp` whose scan hands out at least one request
returns with `lastUnreadPtr` at the request last handed to the callback.
When the context is not done during the scan (the scan ends at the end of
the log or with an error of the scanner) every request handed out was sent
and `lastUnreadPtr` is the pointer of the request most recently sent to
`output`. When the context is done at the callback of the request `r`, the
requests before `r` were sent, `r` was not, the context's error is returned
and `lastUnreadPtr` is the pointer of `r`. -/
theorem catchUp_lastUnreadPtr (sc : slowChaser) (p : valuePointer) (vlog : valLogScanner)
    (ctx : Context) (hp : sc.lastUnreadPtr = some p) (hne : (vlog p).visits ≠ []) :
    ∃ sc1 err, sc.catchUp vlog ctx = some (sc1, err) ∧
      (((∀ j, j < (vlog p).visits.length → ctx.doneAt j = none) ∧
          err = (vlog p).err ∧
          sc1.output = sc.output ++ (vlog p).visits ∧
          sc1.lastUnreadPtr = sc1.output.getLast?.map (fun r => r.valuePointer)) ∨
        ∃ k e r, (vlog p).visits[k]? = some r ∧
          (∀ j, j < k → ctx.doneAt j = none) ∧ ctx.doneAt k = some e ∧
          err = some (Error.ctx e) ∧
          sc1.output = sc.output ++ (vlog p).visits.take k ∧
          sc1.lastUnreadPtr = some r.valuePointer) := by
  rcases ctx_cases ctx (vlog p).visits.length with h | ⟨k, e, hk, hlt, he⟩
  · refine ⟨_, _, catchUp_run sc p vlog ctx hp h, Or.inl ⟨h, rfl, rfl, ?_⟩⟩
    simp only
    rw [ptrAfter_eq_getLast _ _ hne, List.getLast?_append_of_ne_nil _ hne]
  · have hr : (vlog p).visits[k]? = some ((vlog p).visits[k]) := List.getElem?_eq_getElem hk
    exact ⟨_, _, catchUp_cancel sc p vlog ctx k e _ hp hr hlt he,
      Or.inr ⟨k, e, _, hr, hlt, he, rfl, rfl, rfl⟩⟩

/-- Witness of `catchUp_lastUnreadPtr`: a chaser armed at `reqA`, scanning
the log `[reqA, reqB]`. -/
theorem catchUp_lastUnreadPtr_witness :
    ∃ sc1 err, ((newSlowChaser 0 []).TurnOn (some reqA.valuePointer)).catchUp
        (logScanner [reqA, reqB]) Context.background = some (sc1, err) ∧
      (((∀ j, j < (logScanner [reqA, reqB] reqA.valuePointer).visits.length →
            Context.background.doneAt j = none) ∧
          err = (logScanner [reqA, reqB] reqA.valuePointer).err ∧
          sc1.output = ((newSlowChaser 0 []).TurnOn (some reqA.valuePointer)).output ++
            (logScanner [reqA, reqB] reqA.valuePointer).visits ∧
          sc1.lastUnreadPtr = sc1.output.getLast?.map (fun r => r.valuePointer)) ∨
        ∃ k e r, (logScanner [reqA, reqB] reqA.valuePointer).visits[k]? = some r ∧
          (∀ j, j < k → Context.background.doneAt j = none) ∧
          Context.background.doneAt k = some e ∧
          err = some (Error.ctx e) ∧
          sc1.output = ((newSlowChaser 0 []).TurnOn (some reqA.valuePointer)).output ++
            (logScanner [reqA, reqB] reqA.valuePointer).visits.take k ∧
          sc1.lastUnreadPtr = some r.valuePointer) :=
  catchUp_lastUnreadPtr _ reqA.valuePointer _ _ rfl (by decide)

end Storage

namespace Storage

/-- What `catchUp` leaves alone: the flag, the lock, the recovery clock and
the timeout; and it never makes `lastUnreadPtr` nil. -/
theorem catchUp_frame (sc sc1 : slowChaser) (vlog : valLogScanner) (ctx : Context)
    (err : Option Error) (h : sc.catchUp vlog ctx = some (sc1, err)) :
    sc1.on_ = sc.on_ ∧ sc1.WriteLock = sc.WriteLock ∧
      sc1.lastRecoverAttempt = sc.lastRecoverAttempt ∧
      sc1.recoveryTimeout = sc.recoveryTimeout ∧ sc1.lastUnreadPtr ≠ none := by
  cases hp : sc.lastUnreadPtr with
  | none => simp [slowChaser.catchUp, hp] at h
  | some p =>
    rcases ctx_cases ctx (vlog p).visits.length with hc | ⟨k, e, hk, hlt, he⟩
    · rw [catchUp_run sc p vlog ctx hp hc] at h
      simp only [Option.some.injEq, Prod.mk.injEq] at h
      obtain ⟨h1, _⟩ := h
      subst h1
      refine ⟨rfl, rfl, rfl, rfl, ?_⟩
      simp only
      cases hv : (vlog p).visits with
      | nil => simp [ptrAfter]
      | cons a as =>
        rw [ptrAfter_eq_getLast _ _ (List.cons_ne_nil a as)]
        simp [List.getLast?_eq_getLast]
    · have hr : (vlog p).visits[k]? = some ((vlog p).visits[k]) :=
        List.getElem?_eq_getElem hk
      rw [catchUp_cancel sc p vlog ctx k e _ hp hr hlt he] at h
      simp only [Option.some.injEq, Prod.mk.injEq] at h
      obtain ⟨h1, _⟩ := h
      subst h1
      exact ⟨rfl, rfl, rfl, rfl, by simp⟩

/-- `catchUp` returns whenever `lastUnreadPtr` is not nil. -/
theorem catchUp_returns (sc : slowChaser) (p : valuePointer) (vlog : valLogScanner)
    (ctx : Context) (hp : sc.lastUnreadPtr = some p) :
    ∃ sc1 err, sc.catchUp vlog ctx = some (sc1, err) := by
  simp [slowChaser.catchUp, hp]

/-! ## The state machine -/

/-- C4, as stated, fails: `TurnOn` takes a pointer, and `TurnOn(nil)` from
`newSlowChaser` gives a chaser that is on with a nil `lastUnreadPtr`. -/
theorem TurnOn_nil_on_with_nil_ptr :
    ((newSlowChaser 0 []).steps [ChaserStep.TurnOn none]).map
      (fun sc => (sc.IsOn, sc.lastUnreadPtr)) = some (true, none) := by
  rfl

theorem step_keeps_on_implies_ptr (sc sc1 : slowChaser) (st : ChaserStep)
    (harmed : st.armed) (_hinv : sc.IsOn = true → sc.lastUnreadPtr ≠ none)
    (h : sc.step st = some sc1) : sc1.IsOn = true → sc1.lastUnreadPtr ≠ none := by
  cases st with
  | TurnOn p =>
    simp only [slowChaser.step, Option.some.injEq] at h
    subst h
    intro _
    exact harmed
  | catchUp vlog ctx =>
    simp only [slowChaser.step] at h
    cases hs : sc.catchUp vlog ctx with
    | none => simp [hs] at h
    | some r =>
      obtain ⟨s, e⟩ := r
      simp only [hs, Option.map_some', Option.some.injEq] at h
      subst h
      intro _
      exact (catchUp_frame sc s vlog ctx e hs).2.2.2.2
  | turnOff =>
    simp only [slowChaser.step, Option.some.injEq] at h
    subst h
    intro hon
    simp [slowChaser.turnOff, slowChaser.IsOn] at hon

theorem steps_keep_on_implies_ptr (sts : List ChaserStep) :
    ∀ (sc sc1 : slowChaser), (∀ st, st ∈ sts → st.armed) →
      (sc.IsOn = true → sc.lastUnreadPtr ≠ none) →
      sc.steps sts = some sc1 → sc1.IsOn = true → sc1.lastUnreadPtr ≠ none := by
  induction sts with
  | nil =>
    intro sc sc1 _ hinv h
    simp only [slowChaser.steps, Option.some.injEq] at h
    subst h
    exact hinv
  | cons st rest ih =>
    intro sc sc1 harmed hinv h
    simp only [slowChaser.steps] at h
    cases hst : sc.step st with
    | none => simp [hst] at h
    | some s =>
      rw [hst] at h
      simp only [Option.some_bind] at h
      exact ih s sc1 (fun x hx => harmed x (List.mem_cons_of_mem _ hx))
        (step_keeps_on_implies_ptr sc s st (harmed st (List.mem_cons_self _ _)) hinv hst) h

/-- C4 (amended): in every state of a slowChaser reached from `newSlowChaser`
by a sequence of `TurnOn`, `catchUp` and `turnOff` steps in which every
`TurnOn` passes a pointer that is not nil, if `IsOn()` is true then
`lastUnreadPtr` is not nil. -/
theorem on_implies_lastUnreadPtr (recoveryTimeout : Int) (output : List request)
    (sts : List ChaserStep) (sc : slowChaser)
    (harmed : ∀ st, st ∈ sts → st.armed)
    (h : (newSlowChaser recoveryTimeout output).steps sts = some sc)
    (hon : sc.IsOn = true) : sc.lastUnreadPtr ≠ none :=
  steps_keep_on_implies_ptr sts _ sc harmed
    (by intro h0; simp [newSlowChaser, slowChaser.IsOn] at h0) h hon

/-- Witness of `on_implies_lastUnreadPtr`: turn on at `reqA`, catch up over
the log `[reqA, reqB]`. -/
theorem on_implies_lastUnreadPtr_witness :
    ((newSlowChaser 0 []).steps
        [ChaserStep.TurnOn (some reqA.valuePointer),
         ChaserStep.catchUp (logScanner [reqA, reqB]) Context.background]
      = some { on_ := 1, lastUnreadPtr := some reqB.valuePointer, recoveryTimeout := 0,
               lastRecoverAttempt := 0, output := [reqA, reqB], WriteLock := false }) ∧
    some reqB.valuePointer ≠ none :=
  ⟨rfl, on_implies_lastUnreadPtr 0 []
      [ChaserStep.TurnOn (some reqA.valuePointer),
       ChaserStep.catchUp (logScanner [reqA, reqB]) Context.background]
      { on_ := 1, lastUnreadPtr := some reqB.valuePointer, recoveryTimeout := 0,
        lastRecoverAttempt := 0, output := [reqA, reqB], WriteLock := false }
      (by
        intro st hst
        simp only [List.mem_cons, List.mem_singleton, List.not_mem_nil, or_false] at hst
        rcases hst with rfl | rfl
        · simp [ChaserStep.armed]
        · simp [ChaserStep.armed])
      rfl rfl⟩

end Storage

namespace Storage

/-! ## One pass through the loop of Run -/

theorem waitLoop_off (ed : Option CtxErr) (rd : Nat → Option CtxErr) :
    ∀ (fuel k : Nat),
      waitLoop { entryDone := ed, isOn := fun _ => false, roundDone := rd } fuel k
        ≠ some none := by
  intro fuel
  induction fuel with
  | zero => intro k; simp [waitLoop]
  | succ n ih =>
    intro k
    simp only [waitLoop]
    cases hrd : rd k with
    | none => simpa [hrd] using ih (k + 1)
    | some e => simp [hrd]

/-- While nobody else runs, `waitUntilTurnedOn` returns nil only for a
chaser that is on. -/
theorem wait_nil_on (ed : Option CtxErr) (rd : Nat → Option CtxErr) (b : Bool) (fuel : Nat)
    (h : waitUntilTurnedOn { entryDone := ed, isOn := fun _ => b, roundDone := rd } fuel
      = some none) : b = true := by
  cases b with
  | true => rfl
  | false =>
    cases ed with
    | none =>
      simp only [waitUntilTurnedOn] at h
      exact absurd h (waitLoop_off none rd fuel 0)
    | some e => simp [waitUntilTurnedOn] at h

/-- A chaser that is on, under a context that is not done, is through the
wait at the first test. -/
theorem wait_on (rd : Nat → Option CtxErr) (fuel : Nat) (hfuel : 0 < fuel) :
    waitUntilTurnedOn { entryDone := none, isOn := fun _ => true, roundDone := rd } fuel
      = some none := by
  cases fuel with
  | zero => omega
  | succ n => simp [waitUntilTurnedOn, waitLoop]

/-- The passes of `Run` that reach the recovery attempt: the chaser was on
with a pointer, the first `catchUp` returned no error, and the result of the
pass is the result of `recover` on the chaser the first `catchUp` left. -/
theorem runIter_recovery (sc : slowChaser) (env : IterEnv)
    (h : (sc.runIter env).2 = IterResult.recovered ∨
      (sc.runIter env).2 = IterResult.recoverFailed) :
    sc.IsOn = true ∧ ∃ sc1, sc.catchUp env.vlog1 env.ctx = some (sc1, none) ∧
      sc.runIter env = sc1.recover env.t3 env.vlog2 env.timeoutCtx := by
  unfold slowChaser.runIter at h ⊢
  generalize hw : waitUntilTurnedOn _ _ = w at h ⊢
  match w, hw with
  | none, _ => simp at h
  | some (some (Error.ctx _)), _ => simp at h
  | some (some (Error.scan _)), _ => simp at h
  | some none, hw =>
    refine ⟨wait_nil_on _ _ _ _ hw, ?_⟩
    simp only at h ⊢
    by_cases hp : sc.lastUnreadPtr = none
    · simp [hp] at h
    · rw [if_neg hp] at h ⊢
      generalize hc : sc.catchUp env.vlog1 env.ctx = c at h ⊢
      match c, hc with
      | none, _ => simp at h
      | some (sc1, some _), _ => simp at h
      | some (sc1, none), _ =>
        refine ⟨sc1, rfl, ?_⟩
        simp only at h ⊢
        split
        · rename_i hskip
          rw [if_pos hskip] at h
          simp at h
        · rfl

end Storage

namespace Storage

/-- C5: every recovery attempt of `Run` (a pass of the loop that reaches the
`catchUp` under the timeout context) runs that `catchUp` with `WriteLock`
held and ends with `WriteLock` released, whether the `catchUp` failed or
not; the chaser ends the attempt off with `lastUnreadPtr` nil if and only if
that `catchUp` returned no error, and otherwise stays on with a
`lastUnreadPtr` that is not nil. -/
theorem recovery_attempt (sc : slowChaser) (env : IterEnv)
    (h : (sc.runIter env).2 = IterResult.recovered ∨
      (sc.runIter env).2 = IterResult.recoverFailed) :
    ∃ sc1 sc3 err,
      sc.catchUp env.vlog1 env.ctx = some (sc1, none) ∧
      ({ sc1 with lastRecoverAttempt := env.t3, WriteLock := true } : slowChaser).catchUp
          env.vlog2 env.timeoutCtx = some (sc3, err) ∧
      sc3.WriteLock = true ∧
      (sc.runIter env).1.WriteLock = false ∧
      (((sc.runIter env).1.IsOn = false ∧ (sc.runIter env).1.lastUnreadPtr = none)
        ↔ err = none) ∧
      (err ≠ none →
        (sc.runIter env).1.IsOn = true ∧ (sc.runIter env).1.lastUnreadPtr ≠ none) := by
  obtain ⟨hon, sc1, hc, heq⟩ := runIter_recovery sc env h
  obtain ⟨hon1, _, _, _, hp1⟩ := catchUp_frame sc sc1 _ _ _ hc
  obtain ⟨p, hp⟩ := Option.ne_none_iff_exists'.mp hp1
  have hp2 : ({ sc1 with lastRecoverAttempt := env.t3, WriteLock := true } :
      slowChaser).lastUnreadPtr = some p := hp
  obtain ⟨sc3, err, hc3⟩ := catchUp_returns _ p env.vlog2 env.timeoutCtx hp2
  obtain ⟨hon3, hl3, _, _, hp3⟩ := catchUp_frame _ sc3 _ _ _ hc3
  have hon3b : sc3.IsOn = true := by
    simp only [slowChaser.IsOn] at hon ⊢
    rw [hon3]
    simpa [hon1] using hon
  refine ⟨sc1, sc3, err, hc, hc3, hl3, ?_⟩
  rw [heq]
  unfold slowChaser.recover
  simp only
  rw [hc3]
  cases err with
  | none => simp [slowChaser.turnOff, slowChaser.IsOn]
  | some e =>
    simp only [reduceCtorEq, iff_false, not_and, ne_eq, not_false_eq_true, true_implies]
    refine ⟨trivial, ?_, ?_⟩
    · intro hoff
      rw [show ({ sc3 with WriteLock := false } : slowChaser).IsOn = sc3.IsOn from rfl,
        hon3b] at hoff
      exact absurd hoff (by decide)
    · exact ⟨hon3b, hp3⟩

/-- Witness of `recovery_attempt`: a chaser armed at `reqA` on the log
`[reqA, reqB]`, a quick first catch-up and no earlier recovery attempt. -/
theorem recovery_attempt_witness :
    (((newSlowChaser 5 []).TurnOn (some reqA.valuePointer)).runIter
        (quietIter [reqA, reqB] 100000000000)).2 = IterResult.recovered ∧
    ∃ sc1 sc3 err,
      ((newSlowChaser 5 []).TurnOn (some reqA.valuePointer)).catchUp
          (quietIter [reqA, reqB] 100000000000).vlog1
          (quietIter [reqA, reqB] 100000000000).ctx = some (sc1, none) ∧
      ({ sc1 with lastRecoverAttempt := (quietIter [reqA, reqB] 100000000000).t3,
                  WriteLock := true } : slowChaser).catchUp
          (quietIter [reqA, reqB] 100000000000).vlog2
          (quietIter [reqA, reqB] 100000000000).timeoutCtx = some (sc3, err) ∧
      sc3.WriteLock = true ∧
      (((newSlowChaser 5 []).TurnOn (some reqA.valuePointer)).runIter
          (quietIter [reqA, reqB] 100000000000)).1.WriteLock = false ∧
      (((((newSlowChaser 5 []).TurnOn (some reqA.valuePointer)).runIter
            (quietIter [reqA, reqB] 100000000000)).1.IsOn = false ∧
          (((newSlowChaser 5 []).TurnOn (some reqA.valuePointer)).runIter
            (quietIter [reqA, reqB] 100000000000)).1.lastUnreadPtr = none)
        ↔ err = none) ∧
      (err ≠ none →
        (((newSlowChaser 5 []).TurnOn (some reqA.valuePointer)).runIter
            (quietIter [reqA, reqB] 100000000000)).1.IsOn = true ∧
          (((newSlowChaser 5 []).TurnOn (some reqA.valuePointer)).runIter
            (quietIter [reqA, reqB] 100000000000)).1.lastUnreadPtr ≠ none) :=
  ⟨by decide, recovery_attempt _ _ (Or.inl (by decide))⟩

end Storage

namespace Storage

/-- A pass of `Run` for a chaser that is on with a pointer, under a context
that is not done while waiting: the pass is decided by the first
`catchUp`. -/
theorem runIter_on (sc : slowChaser) (env : IterEnv) (p : valuePointer)
    (hwait : env.waitEntryDone = none) (hfuel : 0 < env.waitFuel)
    (hon : sc.IsOn = true) (hp : sc.lastUnreadPtr = some p) :
    sc.runIter env =
      match sc.catchUp env.vlog1 env.ctx with
      | none => (sc, IterResult.panicked)
      | some (sc1, some _) => (sc1, IterResult.catchUpFailed)
      | some (sc1, none) =>
        if (decide (timeSince env.t1 env.t0 ≥ slowCatchUpThreshold) ||
            decide (timeSince env.t2 sc1.lastRecoverAttempt ≤ recoveryCoolDown)) = true
        then (sc1, IterResult.skipRecovery)
        else sc1.recover env.t3 env.vlog2 env.timeoutCtx := by
  unfold slowChaser.runIter
  rw [hwait, hon, wait_on _ _ hfuel]
  simp only
  rw [if_neg (by rw [hp]; simp)]

/-- A `catchUp` only adds to the history of `output`. -/
theorem catchUp_output (sc sc1 : slowChaser) (vlog : valLogScanner) (ctx : Context)
    (err : Option Error) (h : sc.catchUp vlog ctx = some (sc1, err)) :
    ∃ rest, sc1.output = sc.output ++ rest := by
  cases hp : sc.lastUnreadPtr with
  | none => simp [slowChaser.catchUp, hp] at h
  | some p =>
    rcases ctx_cases ctx (vlog p).visits.length with hc | ⟨k, e, hk, hlt, he⟩
    · rw [catchUp_run sc p vlog ctx hp hc] at h
      simp only [Option.some.injEq, Prod.mk.injEq] at h
      obtain ⟨h1, _⟩ := h
      subst h1
      exact ⟨_, rfl⟩
    · have hr : (vlog p).visits[k]? = some ((vlog p).visits[k]) :=
        List.getElem?_eq_getElem hk
      rw [catchUp_cancel sc p vlog ctx k e _ hp hr hlt he] at h
      simp only [Option.some.injEq, Prod.mk.injEq] at h
      obtain ⟨h1, _⟩ := h
      subst h1
      exact ⟨_, rfl⟩

/-- A recovery attempt only adds to the history of `output`. -/
theorem recover_output (sc : slowChaser) (now : Int) (vlog : valLogScanner)
    (ctx : Context) : ∃ rest, (sc.recover now vlog ctx).1.output = sc.output ++ rest := by
  unfold slowChaser.recover
  simp only
  generalize hc : slowChaser.catchUp _ vlog ctx = c
  match c, hc with
  | none, _ => exact ⟨[], by simp⟩
  | some (sc3, some _), hc =>
    obtain ⟨rest, hrest⟩ := catchUp_output _ sc3 vlog ctx _ hc
    exact ⟨rest, hrest⟩
  | some (sc3, none), hc =>
    obtain ⟨rest, hrest⟩ := catchUp_output _ sc3 vlog ctx _ hc
    exact ⟨rest, hrest⟩

/-- C6, as stated, fails: the first scan of the pass hands out `reqA` and
`reqB` and then breaks with an error of the scanner. `catchUp` fails, and
`lastUnreadPtr`, which was at `reqA`, is left at `reqB`. -/
theorem failed_catchUp_moves_ptr :
    ((((newSlowChaser 5 []).TurnOn (some reqA.valuePointer)).runIter
          (brokenIter [reqA, reqB, reqC] 0)).2,
      (((newSlowChaser 5 []).TurnOn (some reqA.valuePointer)).runIter
          (brokenIter [reqA, reqB, reqC] 0)).1.lastUnreadPtr,
      ((newSlowChaser 5 []).TurnOn (some reqA.valuePointer)).lastUnreadPtr)
      = (IterResult.catchUpFailed, some reqB.valuePointer, some reqA.valuePointer)
    ∧ reqB.valuePointer ≠ reqA.valuePointer := by
  constructor
  · decide
  · decide

/-- The pointer a scan leaves is the old one exactly when the scan handed
out nothing, or the last request it handed out sits at the old pointer. -/
theorem ptrAfter_eq_old_iff (p : valuePointer) (vs : List request) :
    ptrAfter (some p) vs = some p ↔ ∀ r, vs.getLast? = some r → r.valuePointer = p := by
  by_cases hne : vs = []
  · subst hne
    simp [ptrAfter]
  · rw [ptrAfter_eq_getLast _ _ hne]
    cases hl : vs.getLast? with
    | none => exact absurd (List.getLast?_eq_none_iff.mp hl) hne
    | some r0 => simp

/-- C6 (amended): a `catchUp` of `Run` that fails with an error of the
scanner leaves `lastUnreadPtr` at the last request the scan handed out
before it broke. So `lastUnreadPtr` is unchanged exactly when the scan
handed out nothing or the last request it handed out is the one
`lastUnreadPtr` already pointed at (a scan that breaks right after the
request at the pointer), and has moved otherwise. The chaser stays on, and
`Run` does not touch `lastUnreadPtr` before the next `catchUp`: the next
pass scans from the pointer the failed one left, sending what that scan
hands out. -/
theorem failed_catchUp_retry (sc : slowChaser) (env : IterEnv) (p : valuePointer)
    (e : Error) (hwait : env.waitEntryDone = none) (hfuel : 0 < env.waitFuel)
    (hon : sc.IsOn = true) (hp : sc.lastUnreadPtr = some p)
    (hctx : ∀ j, j < (env.vlog1 p).visits.length → env.ctx.doneAt j = none)
    (herr : (env.vlog1 p).err = some e) :
    (sc.runIter env).2 = IterResult.catchUpFailed ∧
      (sc.runIter env).1.lastUnreadPtr = ptrAfter (some p) (env.vlog1 p).visits ∧
      ((sc.runIter env).1.lastUnreadPtr = sc.lastUnreadPtr ↔
        ∀ r, (env.vlog1 p).visits.getLast? = some r → r.valuePointer = p) ∧
      (sc.runIter env).1.IsOn = true ∧
      ∀ (next : IterEnv) (q : valuePointer),
        (sc.runIter env).1.lastUnreadPtr = some q →
        next.waitEntryDone = none → 0 < next.waitFuel →
        (∀ j, j < (next.vlog1 q).visits.length → next.ctx.doneAt j = none) →
        ∃ rest, ((sc.runIter env).1.runIter next).1.output =
          (sc.runIter env).1.output ++ (next.vlog1 q).visits ++ rest := by
  have hrun := runIter_on sc env p hwait hfuel hon hp
  rw [catchUp_run sc p env.vlog1 env.ctx hp hctx, herr] at hrun
  simp only at hrun
  rw [hrun]
  refine ⟨rfl, rfl, ?_, hon, ?_⟩
  · simp only
    rw [hp]
    exact ptrAfter_eq_old_iff p (env.vlog1 p).visits
  · intro next q hq hw2 hf2 hctx2
    simp only at hq
    have hrun2 := runIter_on
      ({ sc with lastUnreadPtr := ptrAfter (some p) (env.vlog1 p).visits,
                 output := sc.output ++ (env.vlog1 p).visits } : slowChaser)
      next q hw2 hf2 hon hq
    rw [catchUp_run _ q next.vlog1 next.ctx hq hctx2] at hrun2
    simp only at hrun2 ⊢
    rw [hrun2]
    cases herr2 : (next.vlog1 q).err with
    | some e2 => exact ⟨[], by simp⟩
    | none =>
      simp only
      split
      · exact ⟨[], by simp⟩
      · obtain ⟨rest, hrest⟩ := recover_output
          ({ sc with lastUnreadPtr := ptrAfter (some q) (next.vlog1 q).visits,
                     output := sc.output ++ (env.vlog1 p).visits ++ (next.vlog1 q).visits } :
            slowChaser) next.t3 next.vlog2 next.timeoutCtx
        exact ⟨rest, hrest⟩

end Storage

namespace Storage

/-- Witness of `failed_catchUp_retry`: the chaser armed at `reqA`, a first
scan that breaks after `reqA` and `reqB`. -/
theorem failed_catchUp_retry_witness :
    (armedAtA.runIter (brokenIter [reqA, reqB, reqC] 0)).2 = IterResult.catchUpFailed ∧
      (armedAtA.runIter (brokenIter [reqA, reqB, reqC] 0)).1.lastUnreadPtr =
        ptrAfter (some reqA.valuePointer)
          ((brokenIter [reqA, reqB, reqC] 0).vlog1 reqA.valuePointer).visits ∧
      ((armedAtA.runIter (brokenIter [reqA, reqB, reqC] 0)).1.lastUnreadPtr =
          armedAtA.lastUnreadPtr ↔
        ∀ r, ((brokenIter [reqA, reqB, reqC] 0).vlog1 reqA.valuePointer).visits.getLast?
          = some r → r.valuePointer = reqA.valuePointer) ∧
      (armedAtA.runIter (brokenIter [reqA, reqB, reqC] 0)).1.IsOn = true ∧
      ∀ (next : IterEnv) (q : valuePointer),
        (armedAtA.runIter (brokenIter [reqA, reqB, reqC] 0)).1.lastUnreadPtr = some q →
        next.waitEntryDone = none → 0 < next.waitFuel →
        (∀ j, j < (next.vlog1 q).visits.length → next.ctx.doneAt j = none) →
        ∃ rest, ((armedAtA.runIter (brokenIter [reqA, reqB, reqC] 0)).1.runIter next).1.output =
          (armedAtA.runIter (brokenIter [reqA, reqB, reqC] 0)).1.output ++
            (next.vlog1 q).visits ++ rest :=
  failed_catchUp_retry armedAtA (brokenIter [reqA, reqB, reqC] 0) reqA.valuePointer
    (Error.scan "read") rfl (by decide) rfl rfl (fun _ _ => rfl) rfl

end Storage

namespace Storage

/-! ## A chaser session -/

theorem destutter'_snoc (x : request) (l : List request) (a : request) :
    List.destutter' Ne x (l ++ [a]) =
      if (List.destutter' Ne x l).getLast? = some a
      then List.destutter' Ne x l
      else List.destutter' Ne x l ++ [a] := by
  induction l generalizing x with
  | nil =>
    by_cases hxa : x = a
    · simp [List.destutter', hxa]
    · simp [List.destutter', hxa]
  | cons b l ih =>
    by_cases hxb : x = b
    · subst hxb
      have hn : ¬ x ≠ x := fun h => h rfl
      rw [List.cons_append, List.destutter'_cons_neg _ hn, List.destutter'_cons_neg _ hn]
      exact ih x
    · have hp : x ≠ b := hxb
      rw [List.cons_append, List.destutter'_cons_pos _ hp, List.destutter'_cons_pos _ hp,
        ih b]
      have hne : List.destutter' Ne b l ≠ [] := List.destutter'_ne_nil _ _
      cases hd : List.destutter' Ne b l with
      | nil => exact absurd hd hne
      | cons y ys =>
        rw [List.getLast?_cons_cons]
        split <;> simp

theorem collapse_snoc (l : List request) (a : request) :
    collapse (l ++ [a]) =
      if (collapse l).getLast? = some a then collapse l else collapse l ++ [a] := by
  cases l with
  | nil => simp [collapse, List.destutter, List.destutter']
  | cons x l => exact destutter'_snoc x l a

end Storage

namespace Storage

theorem getElem_not_mem_take (S : List request) (hnd : S.Nodup) (k : Nat) (r : request)
    (hk : S[k]? = some r) : r ∉ S.take k := by
  intro hmem
  obtain ⟨i, hi, hir⟩ := List.getElem_of_mem hmem
  have hilen : i < (S.take k).length := hi
  rw [List.length_take] at hilen
  have hik : i < k := by omega
  have hiS : i < S.length := by omega
  obtain ⟨hkS, hkr⟩ := List.getElem?_eq_some_iff.mp hk
  rw [List.getElem_take] at hir
  have : i = k := (List.Nodup.getElem_inj_iff hnd).mp (hir.trans hkr.symm)
  omega

theorem take_succ_of_getElem (S : List request) (k : Nat) (r : request)
    (hk : S[k]? = some r) : S.take (k + 1) = S.take k ++ [r] := by
  rw [List.take_succ, hk]
  rfl

/-- Sending the request of index `k` after a history that collapses to the
first `k` or `k + 1` requests gives a history that collapses to the first
`k + 1`. -/
theorem collapse_send (S : List request) (hnd : S.Nodup) (sent : List request)
    (n k : Nat) (r : request) (hk : S[k]? = some r) (hs : collapse sent = S.take n)
    (hn : n = k ∨ n = k + 1) : collapse (sent ++ [r]) = S.take (k + 1) := by
  rw [collapse_snoc, hs]
  rcases hn with rfl | rfl
  · have hnot : (S.take n).getLast? ≠ some r := by
      intro hl
      exact getElem_not_mem_take S hnd n r hk (List.mem_of_getLast?_eq_some hl)
    rw [if_neg hnot, take_succ_of_getElem S n r hk]
  · have hl : (S.take (k + 1)).getLast? = some r := by
      rw [take_succ_of_getElem S k r hk]; simp
    rw [if_pos hl]

/-- Sending `j ≥ 1` consecutive requests from index `k` on. -/
theorem collapse_sends (S : List request) (hnd : S.Nodup) (sent : List request)
    (n k : Nat) (hs : collapse sent = S.take n) (hn : n = k ∨ n = k + 1) :
    ∀ j, 1 ≤ j → k + j ≤ S.length →
      collapse (sent ++ (S.drop k).take j) = S.take (k + j) := by
  intro j hj
  induction j, hj using Nat.le_induction with
  | base =>
    intro hlen
    have hk : S[k]? = some S[k] := List.getElem?_eq_getElem (by omega)
    have h1 : (S.drop k).take 1 = [S[k]] := by
      rw [List.take_one, List.head?_drop, hk]; rfl
    rw [h1]
    exact collapse_send S hnd sent n k _ hk hs hn
  | succ j hj ih =>
    intro hlen
    have hkj : S[k + j]? = some S[k + j] := List.getElem?_eq_getElem (by omega)
    have hd : (S.drop k)[j]? = some S[k + j] := by
      rw [List.getElem?_drop]; exact hkj
    rw [take_succ_of_getElem (S.drop k) j _ hd, ← List.append_assoc]
    rw [show k + (j + 1) = (k + j) + 1 by omega]
    exact collapse_send S hnd _ (k + j) (k + j) _ hkj (ih (by omega)) (Or.inl rfl)

theorem dropWhile_ptr_getElem (M : List request) :
    (M.map (fun r => r.valuePointer)).Nodup →
    ∀ (k : Nat) (r : request), M[k]? = some r →
      M.dropWhile (fun x => decide (x.valuePointer ≠ r.valuePointer)) = M.drop k := by
  induction M with
  | nil => intro _ k r hk; simp at hk
  | cons a M ih =>
    intro hnd k r hk
    rw [List.map_cons, List.nodup_cons] at hnd
    cases k with
    | zero =>
      simp at hk; subst hk
      simp [List.dropWhile]
    | succ k =>
      simp at hk
      have hmem : r.valuePointer ∈ M.map (fun r => r.valuePointer) :=
        List.mem_map_of_mem _ (List.getElem?_mem hk)
      have hne : a.valuePointer ≠ r.valuePointer := by
        intro h; rw [h] at hnd; exact hnd.1 hmem
      rw [List.dropWhile_cons_of_pos (by simpa using hne)]
      simpa using ih hnd.2 k r hk

/-- In a log whose pointers are all different, the scan from a request met
by the scan from `ptr` is the rest of that scan. -/
theorem scanFrom_at (L : List request) (hnd : (L.map (fun r => r.valuePointer)).Nodup)
    (ptr : valuePointer) (k : Nat) (r : request) (hk : (scanFrom L ptr)[k]? = some r) :
    scanFrom L r.valuePointer = (scanFrom L ptr).drop k := by
  have hsplit : L.takeWhile (fun x => decide (x.valuePointer ≠ ptr)) ++ scanFrom L ptr = L :=
    List.takeWhile_append_dropWhile _ L
  generalize hT : L.takeWhile (fun x => decide (x.valuePointer ≠ ptr)) = T at hsplit
  generalize hS : scanFrom L ptr = S at hsplit hk
  have hL : L[T.length + k]? = some r := by
    rw [← hsplit, List.getElem?_append_right (by omega)]
    simpa using hk
  have h1 := dropWhile_ptr_getElem L hnd (T.length + k) r hL
  unfold scanFrom
  rw [h1, ← hsplit, List.drop_append]

theorem scanFrom_nodup (L : List request) (hnd : (L.map (fun r => r.valuePointer)).Nodup)
    (ptr : valuePointer) : (scanFrom L ptr).Nodup :=
  List.Nodup.sublist (List.dropWhile_sublist _) (List.Nodup.of_map _ hnd)

end Storage

namespace Storage

/-- The requests a scanner that agrees with the log hands out from the
request of index `k` of `S`: the `m` requests of `S` from index `k` on. -/
theorem visits_of_agrees (L : List request)
    (hnd : (L.map (fun r => r.valuePointer)).Nodup) (ptr : valuePointer)
    (vlog : valLogScanner) (hag : AgreesWith L vlog) (k : Nat) (r : request)
    (hk : (scanFrom L ptr)[k]? = some r) :
    (vlog r.valuePointer).visits =
        ((scanFrom L ptr).drop k).take (vlog r.valuePointer).visits.length ∧
      k + (vlog r.valuePointer).visits.length ≤ (scanFrom L ptr).length := by
  have hpre := hag r.valuePointer
  rw [scanFrom_at L hnd ptr k r hk] at hpre
  refine ⟨List.prefix_iff_eq_take.mp hpre, ?_⟩
  have hlen := List.IsPrefix.length_le hpre
  rw [List.length_drop] at hlen
  have hkS := (List.getElem?_eq_some_iff.mp hk).1
  omega

/-- A `catchUp` over a scanner that agrees with the log keeps a chaser
working through the log. -/
theorem catchUp_chasing (L : List request)
    (hnd : (L.map (fun r => r.valuePointer)).Nodup) (ptr : valuePointer)
    (out0 : List request) (sc sc1 : slowChaser) (vlog : valLogScanner) (ctx : Context)
    (err : Option Error) (hinv : Chasing (scanFrom L ptr) out0 sc)
    (hag : AgreesWith L vlog) (h : sc.catchUp vlog ctx = some (sc1, err)) :
    Chasing (scanFrom L ptr) out0 sc1 := by
  obtain ⟨sent, n, k, r, hout, hk, hp, hs, hn⟩ := hinv
  obtain ⟨hV, hlen⟩ := visits_of_agrees L hnd ptr vlog hag k r hk
  have hSnd := scanFrom_nodup L hnd ptr
  generalize hSdef : scanFrom L ptr = S at *
  generalize hVdef : (vlog r.valuePointer).visits = V at *
  generalize hm : V.length = m at *
  rcases ctx_cases ctx m with hc | ⟨j, e, hj, hlt, he⟩
  · rw [catchUp_run sc r.valuePointer vlog ctx hp (by rw [hVdef, hm]; exact hc)] at h
    simp only [Option.some.injEq, Prod.mk.injEq] at h
    obtain ⟨h1, _⟩ := h
    subst h1
    rw [hVdef]
    by_cases hm0 : m = 0
    · have hVnil : V = [] := List.length_eq_zero.mp (hm.trans hm0)
      refine ⟨sent, n, k, r, ?_, hk, ?_, hs, hn⟩
      · simp [hVnil, hout]
      · simp [hVnil, ptrAfter]
    · have hVne : V ≠ [] := by
        intro hnil; rw [hnil] at hm; simp at hm; omega
      obtain ⟨x, hx⟩ : ∃ x, S[k + (m - 1)]? = some x :=
        ⟨_, List.getElem?_eq_getElem (by omega)⟩
      have hidx : V[m - 1]? = some x := by
        rw [hV, List.getElem?_take_of_lt (by omega), List.getElem?_drop]
        exact hx
      have hlast : V.getLast? = some x := by
        rw [List.getLast?_eq_getElem?, hm]
        exact hidx
      refine ⟨sent ++ V, k + m, k + (m - 1), x, ?_, hx, ?_, ?_, Or.inr (by omega)⟩
      · simp [hout]
      · simp only
        rw [ptrAfter_eq_getLast _ _ hVne, hlast]; rfl
      · rw [hV]
        exact collapse_sends S hSnd sent n k hs hn m (by omega) hlen
  · obtain ⟨x, hx⟩ : ∃ x, S[k + j]? = some x :=
      ⟨_, List.getElem?_eq_getElem (by omega)⟩
    have hjV : V[j]? = some x := by
      rw [hV, List.getElem?_take_of_lt hj, List.getElem?_drop]
      exact hx
    rw [catchUp_cancel sc r.valuePointer vlog ctx j e x hp
      (by rw [hVdef]; exact hjV) hlt he] at h
    simp only [Option.some.injEq, Prod.mk.injEq] at h
    obtain ⟨h1, _⟩ := h
    subst h1
    rw [hVdef]
    have htake : V.take j = (S.drop k).take j := by
      rw [hV, List.take_take, Nat.min_eq_left (by omega)]
    by_cases hj0 : j = 0
    · subst hj0
      have hr : x = r := by
        rw [Nat.add_zero, hk] at hx
        exact (Option.some.inj hx).symm
      refine ⟨sent, n, k, r, ?_, hk, ?_, hs, hn⟩
      · simp [hout]
      · simp only; rw [hr]
    · refine ⟨sent ++ V.take j, k + j, k + j, x, ?_, hx, rfl, ?_, Or.inl rfl⟩
      · simp [hout]
      · rw [htake]
        exact collapse_sends S hSnd sent n k hs hn j (by omega) (by omega)

/-- A `catchUp` over the whole log that returns no error completes the
session: everything sent since the chaser was turned on is, repetitions
collapsed, the log from the pointer it was turned on with. -/
theorem catchUp_complete (L : List request)
    (hnd : (L.map (fun r => r.valuePointer)).Nodup) (ptr : valuePointer)
    (out0 : List request) (sc sc1 : slowChaser) (ctx : Context)
    (hinv : Chasing (scanFrom L ptr) out0 sc)
    (h : sc.catchUp (logScanner L) ctx = some (sc1, none)) :
    ∃ sent, sc1.output = out0 ++ sent ∧ collapse sent = scanFrom L ptr := by
  obtain ⟨sent, n, k, r, hout, hk, hp, hs, hn⟩ := hinv
  have hV : (logScanner L r.valuePointer).visits = (scanFrom L ptr).drop k :=
    scanFrom_at L hnd ptr k r hk
  have hSnd := scanFrom_nodup L hnd ptr
  have hkS := (List.getElem?_eq_some_iff.mp hk).1
  generalize hSdef : scanFrom L ptr = S at *
  rcases ctx_cases ctx (logScanner L r.valuePointer).visits.length with
    hc | ⟨j, e, hj, hlt, he⟩
  · rw [catchUp_run sc r.valuePointer _ ctx hp hc] at h
    simp only [Option.some.injEq, Prod.mk.injEq] at h
    obtain ⟨h1, _⟩ := h
    subst h1
    refine ⟨sent ++ S.drop k, by simp [hout, hV], ?_⟩
    have h2 := collapse_sends S hSnd sent n k hs hn (S.length - k) (by omega) (by omega)
    rw [List.take_of_length_le (by rw [List.length_drop]),
      List.take_of_length_le (by omega)] at h2
    exact h2
  · have hr : (logScanner L r.valuePointer).visits[j]? =
        some ((logScanner L r.valuePointer).visits[j]) := List.getElem?_eq_getElem hj
    rw [catchUp_cancel sc r.valuePointer _ ctx j e _ hp hr hlt he] at h
    simp at h

end Storage

namespace Storage

theorem agrees_logScanner (L : List request) : AgreesWith L (logScanner L) :=
  fun _ => List.prefix_refl _

theorem agrees_failingLogScanner (L : List request) (n : Nat) (e : Error) :
    AgreesWith L (failingLogScanner L n e) :=
  fun _ => List.take_prefix _ _

theorem chasing_congr (S out0 : List request) (sc sc1 : slowChaser)
    (hout : sc1.output = sc.output) (hptr : sc1.lastUnreadPtr = sc.lastUnreadPtr)
    (h : Chasing S out0 sc) : Chasing S out0 sc1 := by
  obtain ⟨sent, n, k, r, h1, h2, h3, h4, h5⟩ := h
  exact ⟨sent, n, k, r, hout.trans h1, h2, hptr.trans h3, h4, h5⟩

/-- The scan from the pointer of a request of the log starts with that
request. -/
theorem scanFrom_head (L : List request) (ptr : valuePointer)
    (hptr : ptr ∈ L.map (fun r => r.valuePointer)) :
    ∃ r, (scanFrom L ptr)[0]? = some r ∧ r.valuePointer = ptr := by
  induction L with
  | nil => simp at hptr
  | cons a L ih =>
    by_cases ha : a.valuePointer = ptr
    · exact ⟨a, by simp [scanFrom, List.dropWhile, ha], ha⟩
    · have hmem : ptr ∈ L.map (fun r => r.valuePointer) := by
        rw [List.map_cons, List.mem_cons] at hptr
        rcases hptr with h | h
        · exact absurd h.symm ha
        · exact h
      obtain ⟨r, hr, hrp⟩ := ih hmem
      refine ⟨r, ?_, hrp⟩
      unfold scanFrom at hr ⊢
      rw [List.dropWhile_cons_of_pos (by simpa using ha)]
      exact hr

/-- A chaser just turned on at a request of the log is working through the
log from there, with nothing sent yet. -/
theorem TurnOn_chasing (L : List request) (ptr : valuePointer)
    (hptr : ptr ∈ L.map (fun r => r.valuePointer)) (sc0 : slowChaser) :
    Chasing (scanFrom L ptr) sc0.output (sc0.TurnOn (some ptr)) := by
  obtain ⟨r, hr, hrp⟩ := scanFrom_head L ptr hptr
  refine ⟨[], 0, 0, r, by simp [slowChaser.TurnOn], hr, ?_, by simp [collapse], Or.inl rfl⟩
  simp [slowChaser.TurnOn, hrp]

/-- A pass through the loop of `Run`, with scanners that agree with the log,
keeps a chaser that is on working through the log. -/
theorem runIter_chasing (L : List request)
    (hnd : (L.map (fun r => r.valuePointer)).Nodup) (ptr : valuePointer)
    (out0 : List request) (sc : slowChaser) (env : IterEnv)
    (hag1 : AgreesWith L env.vlog1) (hag2 : AgreesWith L env.vlog2)
    (hinv : sc.IsOn = true → Chasing (scanFrom L ptr) out0 sc) :
    (sc.runIter env).1.IsOn = true → Chasing (scanFrom L ptr) out0 (sc.runIter env).1 := by
  unfold slowChaser.runIter
  generalize hw : waitUntilTurnedOn _ _ = w
  match w, hw with
  | none, _ => exact hinv
  | some (some (Error.ctx _)), _ => exact hinv
  | some (some (Error.scan _)), _ => exact hinv
  | some none, hw =>
    have hon := wait_nil_on _ _ _ _ hw
    have hch := hinv hon
    simp only
    by_cases hp : sc.lastUnreadPtr = none
    · rw [if_pos hp]; exact hinv
    · rw [if_neg hp]
      generalize hc : sc.catchUp env.vlog1 env.ctx = c
      match c, hc with
      | none, _ => exact hinv
      | some (sc1, some _), hc =>
        intro _
        exact catchUp_chasing L hnd ptr out0 sc sc1 _ _ _ hch hag1 hc
      | some (sc1, none), hc =>
        have hch1 := catchUp_chasing L hnd ptr out0 sc sc1 _ _ _ hch hag1 hc
        simp only
        split
        · intro _; exact hch1
        · unfold slowChaser.recover
          simp only
          have hch2 : Chasing (scanFrom L ptr) out0
              ({ sc1 with lastRecoverAttempt := env.t3, WriteLock := true } : slowChaser) :=
            chasing_congr _ _ sc1 _ rfl rfl hch1
          generalize hc3 : slowChaser.catchUp _ env.vlog2 env.timeoutCtx = c3
          match c3, hc3 with
          | none, _ => intro _; exact hch2
          | some (sc3, some _), hc3 =>
            intro _
            exact chasing_congr _ _ sc3 _ rfl rfl
              (catchUp_chasing L hnd ptr out0 _ sc3 _ _ _ hch2 hag2 hc3)
          | some (sc3, none), hc3 =>
            intro hoff
            simp [slowChaser.turnOff, slowChaser.IsOn] at hoff

theorem runIters_chasing (L : List request)
    (hnd : (L.map (fun r => r.valuePointer)).Nodup) (ptr : valuePointer)
    (out0 : List request) (envs : List IterEnv) :
    ∀ (sc : slowChaser),
      (∀ env, env ∈ envs → AgreesWith L env.vlog1 ∧ AgreesWith L env.vlog2) →
      (sc.IsOn = true → Chasing (scanFrom L ptr) out0 sc) →
      (sc.runIters envs).IsOn = true → Chasing (scanFrom L ptr) out0 (sc.runIters envs) := by
  induction envs with
  | nil => intro sc _ hinv; exact hinv
  | cons env rest ih =>
    intro sc hag hinv
    have h1 := hag env (List.mem_cons_self _ _)
    exact ih (sc.runIter env).1 (fun x hx => hag x (List.mem_cons_of_mem _ hx))
      (runIter_chasing L hnd ptr out0 sc env h1.1 h1.2 hinv)

/-- C2, as stated, fails: a chaser turned on at `reqA` on the log
`[reqA, reqB]`, one pass of `Run` in which nothing goes wrong. The first
`catchUp` sends `reqA` and `reqB`, the recovery `catchUp` scans from `reqB`
and sends it again, then the chaser turns off: `reqB` was sent twice. -/
theorem session_sends_twice :
    armedAtA.runIter (quietIter [reqA, reqB] 100000000000) =
      ({ on_ := 0, lastUnreadPtr := none, recoveryTimeout := 5,
         lastRecoverAttempt := 100000000001, output := [reqA, reqB, reqB],
         WriteLock := false }, IterResult.recovered)
    ∧ scanFrom [reqA, reqB] reqA.valuePointer = [reqA, reqB] := by
  constructor
  · decide
  · decide

/-- C2 (amended): for every chaser session, from `TurnOn(ptr)` at a request
of the log until the `turnOff` inside `Run`, over a log whose pointers are
all different and with scanners that visit the log's requests in append
order starting at the request located at the pointer they are given (all of
them in the recovery that turns the chaser off, possibly only the first ones
before), the sequence of requests sent to `output` during the session is,
once immediate repetitions are collapsed, exactly the log's requests from
`ptr` onward in append order: none is skipped and none is sent out of order,
but a request may be sent again by the `catchUp` that follows the one that
sent it. -/
theorem session_output (L : List request)
    (hnd : (L.map (fun r => r.valuePointer)).Nodup) (ptr : valuePointer)
    (hptr : ptr ∈ L.map (fun r => r.valuePointer)) (sc0 : slowChaser)
    (envs : List IterEnv) (last : IterEnv)
    (hags : ∀ env, env ∈ envs → AgreesWith L env.vlog1 ∧ AgreesWith L env.vlog2)
    (hlast1 : AgreesWith L last.vlog1) (hlast2 : last.vlog2 = logScanner L)
    (hrec : (((sc0.TurnOn (some ptr)).runIters envs).runIter last).2
      = IterResult.recovered) :
    ∃ sent,
      (((sc0.TurnOn (some ptr)).runIters envs).runIter last).1.output = sc0.output ++ sent ∧
      collapse sent = scanFrom L ptr := by
  generalize hsc : (sc0.TurnOn (some ptr)).runIters envs = sc at hrec ⊢
  have hinv : sc.IsOn = true → Chasing (scanFrom L ptr) sc0.output sc := by
    rw [← hsc]
    exact runIters_chasing L hnd ptr sc0.output envs _ hags
      (fun _ => TurnOn_chasing L ptr hptr sc0)
  obtain ⟨hon, sc1, hc, heq⟩ := runIter_recovery sc last (Or.inl hrec)
  have hch1 := catchUp_chasing L hnd ptr sc0.output sc sc1 _ _ _ (hinv hon) hlast1 hc
  rw [heq] at hrec ⊢
  unfold slowChaser.recover at hrec ⊢
  simp only at hrec ⊢
  have hch2 : Chasing (scanFrom L ptr) sc0.output
      ({ sc1 with lastRecoverAttempt := last.t3, WriteLock := true } : slowChaser) :=
    chasing_congr _ _ sc1 _ rfl rfl hch1
  generalize hc3 : slowChaser.catchUp _ last.vlog2 last.timeoutCtx = c3 at hrec ⊢
  match c3, hc3 with
  | none, _ => simp at hrec
  | some (sc3, some _), _ => simp at hrec
  | some (sc3, none), hc3 =>
    rw [hlast2] at hc3
    exact catchUp_complete L hnd ptr sc0.output _ sc3 _ hch2 hc3

/-- Witness of `session_output`: the log `[reqA, reqB]`, a chaser turned on
at `reqA`, a pass whose scan breaks and a pass that recovers. -/
theorem session_output_witness :
    ∃ sent,
      ((((newSlowChaser 5 []).TurnOn (some reqA.valuePointer)).runIters
          [brokenIter [reqA, reqB] 0]).runIter
          (quietIter [reqA, reqB] 100000000000)).1.output
        = (newSlowChaser 5 []).output ++ sent ∧
      collapse sent = scanFrom [reqA, reqB] reqA.valuePointer :=
  session_output [reqA, reqB] (by decide) reqA.valuePointer (by decide)
    (newSlowChaser 5 []) [brokenIter [reqA, reqB] 0] (quietIter [reqA, reqB] 100000000000)
    (by
      intro env henv
      rw [List.mem_singleton] at henv
      subst henv
      exact ⟨agrees_failingLogScanner _ _ _, agrees_logScanner _⟩)
    (agrees_logScanner _) rfl (by decide)

end Storage

namespace Arbiter

/-! ## The checkpoint -/

theorem Save_ok_fault (c : dbCheckpoint) (db : Table) (ts status : Int)
    (fault : Option String) (hok : (c.Save db ts status fault).2 = none) : fault = none := by
  cases fault with
  | none => rfl
  | some msg => simp [dbCheckpoint.Save, execReplace] at hok

theorem Save_row (c : dbCheckpoint) (db : Table) (ts status : Int) :
    (c.Save db ts status none).1 c.topicName = some (ts, status) := by
  simp [dbCheckpoint.Save, execReplace]

theorem Load_row (c : dbCheckpoint) (db : Table) (ts status : Int)
    (h : db c.topicName = some (ts, status)) : c.Load db none = (ts, status, none) := by
  simp [dbCheckpoint.Load, queryRowScan, h]

/-- What `Load` reads after a `Save` that returned no error. -/
theorem Load_of_Save_ok (c c1 : dbCheckpoint) (db : Table) (ts status : Int)
    (fault : Option String) (htopic : c1.topicName = c.topicName)
    (hok : (c.Save db ts status fault).2 = none) :
    c1.Load (c.Save db ts status fault).1 none = (ts, status, none) := by
  have hf := Save_ok_fault c db ts status fault hok
  subst hf
  exact Load_row c1 _ ts status (by rw [htopic]; exact Save_row c db ts status)

/-- C7: after `Save(ts, status)` succeeds, `Load` on the same topic returns
exactly `(ts, status)` and no error, whatever the table held before; and
`Save(ts, s); Save(ts, s); Load` returns `(ts, s)`. -/
theorem Save_then_Load (c c1 : dbCheckpoint) (db : Table) (ts status : Int)
    (fault : Option String) (htopic : c1.topicName = c.topicName)
    (hok : (c.Save db ts status fault).2 = none) :
    c1.Load (c.Save db ts status fault).1 none = (ts, status, none) ∧
      ∀ fault2, (c.Save (c.Save db ts status fault).1 ts status fault2).2 = none →
        c1.Load (c.Save (c.Save db ts status fault).1 ts status fault2).1 none
          = (ts, status, none) := by
  refine ⟨Load_of_Save_ok c c1 db ts status fault htopic hok, ?_⟩
  intro fault2 hok2
  exact Load_of_Save_ok c c1 _ ts status fault2 htopic hok2

/-- Witness of `Save_then_Load`: the topic `"t"`, a table that already holds
the row `(7, 0)`, and `Save(100, StatusRunning)`. -/
theorem Save_then_Load_witness :
    (NewCheckpoint "t").Load
        ((NewCheckpoint "t").Save (fun _ => some (7, 0)) 100 StatusRunning none).1 none
      = (100, StatusRunning, none) ∧
    ∀ fault2,
      ((NewCheckpoint "t").Save
        ((NewCheckpoint "t").Save (fun _ => some (7, 0)) 100 StatusRunning none).1
        100 StatusRunning fault2).2 = none →
      (NewCheckpoint "t").Load
        ((NewCheckpoint "t").Save
          ((NewCheckpoint "t").Save (fun _ => some (7, 0)) 100 StatusRunning none).1
          100 StatusRunning fault2).1 none
        = (100, StatusRunning, none) :=
  Save_then_Load (NewCheckpoint "t") (NewCheckpoint "t") (fun _ => some (7, 0)) 100
    StatusRunning none rfl rfl

/-- C8, as stated, fails: `Save(200, 0)` then `Save(100, 0)` both succeed,
`Load` returns 200 before the second and 100 after it. -/
theorem Save_smaller_ts_regresses :
    ((NewCheckpoint "t").Load ((NewCheckpoint "t").Save emptyTable 200 0 none).1 none,
      ((NewCheckpoint "t").Save ((NewCheckpoint "t").Save emptyTable 200 0 none).1
        100 0 none).2,
      (NewCheckpoint "t").Load
        ((NewCheckpoint "t").Save ((NewCheckpoint "t").Save emptyTable 200 0 none).1
          100 0 none).1 none)
      = ((200, 0, none), none, (100, 0, none)) := by
  simp [dbCheckpoint.Load, dbCheckpoint.Save, execReplace, queryRowScan, NewCheckpoint]

/-- C8 (amended): `Save` replaces the row without comparing timestamps, so
the ts `Load` returns after a successful `Save(ts, status)` is `ts`; it is
greater than or equal to the ts `Load` returned before that `Save` exactly
when the saved `ts` is: `Load` never regresses over a sequence of successful
`Save` calls whose ts never decreases. -/
theorem Load_after_Save_monotone (c : dbCheckpoint) (db : Table) (ts0 status0 : Int)
    (ts status : Int) (fault : Option String)
    (hbefore : c.Load db none = (ts0, status0, none))
    (hok : (c.Save db ts status fault).2 = none) :
    (c.Load (c.Save db ts status fault).1 none).1 = ts ∧
      (c.Load (c.Save db ts status fault).1 none).2.2 = none ∧
      (ts0 ≤ (c.Load (c.Save db ts status fault).1 none).1 ↔ ts0 ≤ ts) ∧
      (c.Load db none).1 = ts0 := by
  have h := Load_of_Save_ok c c db ts status fault rfl hok
  rw [h, hbefore]
  exact ⟨rfl, rfl, Iff.rfl, rfl⟩

/-- Witness of `Load_after_Save_monotone`: the row `(100, 1)` replaced by
`Save(200, StatusNormal)`. -/
theorem Load_after_Save_monotone_witness :
    ((NewCheckpoint "t").Load
        ((NewCheckpoint "t").Save (fun _ => some (100, 1)) 200 StatusNormal none).1 none).1
      = 200 ∧
    ((NewCheckpoint "t").Load
        ((NewCheckpoint "t").Save (fun _ => some (100, 1)) 200 StatusNormal none).1 none).2.2
      = none ∧
    (100 ≤ ((NewCheckpoint "t").Load
        ((NewCheckpoint "t").Save (fun _ => some (100, 1)) 200 StatusNormal none).1 none).1
      ↔ (100 : Int) ≤ 200) ∧
    ((NewCheckpoint "t").Load (fun _ => some (100, 1)) none).1 = 100 :=
  Load_after_Save_monotone (NewCheckpoint "t") (fun _ => some (100, 1)) 100 1 200
    StatusNormal none rfl rfl

theorem NotFound_IsNotFound (msg : String) : (Error.NotFound msg).IsNotFound = true := by
  have h : (msg ++ " not found").toList = msg.toList ++ " not found".toList := by simp
  simp only [Error.IsNotFound, Error.text, decide_eq_true_eq]
  rw [h]
  exact ⟨msg.toList ++ [' '], [], by simp⟩

theorem traced_IsNotFound (msg : String) :
    (Error.wrapped (SqlError.driver msg) "").IsNotFound = true ↔
      "not found".toList <:+: msg.toList := by
  simp [Error.IsNotFound, Error.text, SqlError.text]

/-- C9, as stated, fails: the query fails with a driver error whose text is
`"connection not found"`, on a table that holds a row for the topic. `Load`
returns the traced driver error, with zeros, and `errors.IsNotFound`, which
tests the text, holds of it: a query failure that is NotFound, and a
NotFound although the table holds a row. -/
theorem Load_failure_IsNotFound :
    (NewCheckpoint "t").Load (fun _ => some (100, 1)) (some "connection not found")
        = (0, 0, some (Error.wrapped (SqlError.driver "connection not found") "")) ∧
      (Error.wrapped (SqlError.driver "connection not found") "").IsNotFound = true := by
  constructor
  · rfl
  · rw [traced_IsNotFound]
    exact ⟨"connection ".toList, [], rfl⟩

/-- C9 (amended): `Load` returns the error `errors.NotFoundf` makes (its
text is `no checkpoint for: <topic> not found`, of which
`errors.IsNotFound` holds), with `ts = 0` and `status = 0`, exactly when
the query does not fail and the table holds no row for the checkpoint's
topic, as is the case before any `Save`. Any other query failure is
returned, with zeros, as the traced driver error, which keeps the driver's
error as its cause and its text: it is told from the missing checkpoint by
its cause, while `errors.IsNotFound`, which tests the text, holds of it
exactly when the driver's text contains `not found`. Without a row for the
checkpoint's topic `Load` does not succeed, whatever rows other topics have
or are saved. -/
theorem Load_NotFound (c : dbCheckpoint) (db : Table) (fault : Option String) :
    ((∃ msg, c.Load db fault = (0, 0, some (Error.NotFound msg))) ↔
        (fault = none ∧ db c.topicName = none)) ∧
      ((fault = none ∧ db c.topicName = none) →
        c.Load db fault
            = (0, 0, some (Error.NotFound ("no checkpoint for: " ++ c.topicName))) ∧
          (Error.NotFound ("no checkpoint for: " ++ c.topicName)).text
            = "no checkpoint for: " ++ c.topicName ++ " not found" ∧
          (Error.NotFound ("no checkpoint for: " ++ c.topicName)).IsNotFound = true) ∧
      (∀ msg, fault = some msg →
        c.Load db fault = (0, 0, some (Error.wrapped (SqlError.driver msg) "")) ∧
          (Error.wrapped (SqlError.driver msg) "").Cause = some (SqlError.driver msg) ∧
          (Error.wrapped (SqlError.driver msg) "").Cause ≠ some SqlError.ErrNoRows ∧
          (Error.wrapped (SqlError.driver msg) "").text = msg ∧
          ((Error.wrapped (SqlError.driver msg) "").IsNotFound = true ↔
            "not found".toList <:+: msg.toList)) ∧
      (∀ err, (c.Load db fault).2.2 = some err →
        (err.IsNotFound = true ↔
          ((fault = none ∧ db c.topicName = none) ∨
            ∃ msg, fault = some msg ∧ "not found".toList <:+: msg.toList))) ∧
      (db c.topicName = none → (c.Load db fault).2.2 ≠ none) ∧
      (∃ msg, c.Load emptyTable none = (0, 0, some (Error.NotFound msg))) ∧
      (∀ (c2 : dbCheckpoint) (ts status : Int) (fault2 : Option String),
        c2.topicName ≠ c.topicName → db c.topicName = none →
        (c.Load (c2.Save db ts status fault2).1 fault).2.2 ≠ none) := by
  refine ⟨?_, ?_, ?_, ?_, ?_, ?_, ?_⟩
  · cases fault with
    | some msg => simp [dbCheckpoint.Load, queryRowScan]
    | none =>
      cases hrow : db c.topicName with
      | none => simp [dbCheckpoint.Load, queryRowScan, hrow]
      | some row => simp [dbCheckpoint.Load, queryRowScan, hrow]
  · rintro ⟨hf, hrow⟩
    subst hf
    refine ⟨by simp [dbCheckpoint.Load, queryRowScan, hrow], rfl, NotFound_IsNotFound _⟩
  · intro msg hmsg
    subst hmsg
    refine ⟨by simp [dbCheckpoint.Load, queryRowScan], rfl, by simp [Error.Cause], ?_,
      traced_IsNotFound msg⟩
    simp [Error.text, SqlError.text]
  · intro err herr
    cases fault with
    | some msg =>
      simp only [dbCheckpoint.Load, queryRowScan, reduceCtorEq, if_false,
        Option.some.injEq] at herr
      subst herr
      rw [traced_IsNotFound]
      simp
    | none =>
      cases hrow : db c.topicName with
      | none =>
        simp only [dbCheckpoint.Load, queryRowScan, hrow, if_true, Option.some.injEq] at herr
        subst herr
        simp [NotFound_IsNotFound]
      | some row => simp [dbCheckpoint.Load, queryRowScan, hrow] at herr
  · intro hrow
    cases fault with
    | some msg => simp [dbCheckpoint.Load, queryRowScan]
    | none => simp [dbCheckpoint.Load, queryRowScan, hrow]
  · exact ⟨_, rfl⟩
  · intro c2 ts status fault2 hne hrow
    have hrow2 : (c2.Save db ts status fault2).1 c.topicName = none := by
      cases fault2 with
      | some msg => simpa [dbCheckpoint.Save, execReplace] using hrow
      | none =>
        simp only [dbCheckpoint.Save, execReplace]
        rw [if_neg (fun h => hne h.symm)]
        exact hrow
    cases fault with
    | some msg => simp [dbCheckpoint.Load, queryRowScan]
    | none => simp [dbCheckpoint.Load, queryRowScan, hrow2]

end Arbiter

namespace Storage

/-! ## The value pointer on the wire -/

theorem putBE_length (w n : Nat) : (putBE w n).length = w := by
  induction w generalizing n with
  | zero => rfl
  | succ w ih => simp [putBE, ih]

theorem getBE_append_singleton (bs : List Nat) (b : Nat) :
    getBE (bs ++ [b]) = getBE bs * 256 + b := by
  simp [getBE, List.foldl_append]

theorem getBE_putBE (w n : Nat) : getBE (putBE w n) = n % 256 ^ w := by
  induction w generalizing n with
  | zero => simp [putBE, getBE, Nat.mod_one]
  | succ w ih =>
    rw [putBE, getBE_append_singleton, ih, pow_succ, Nat.mul_comm (256 ^ w) 256,
      Nat.mod_mul]
    omega

theorem toInt64_toUint64 (i : Int) (hlo : -(2 ^ 63) ≤ i) (hhi : i < 2 ^ 63) :
    toInt64 (toUint64 i) = i := by
  unfold toInt64 toUint64
  split <;> omega

theorem toUint64_lt (i : Int) : toUint64 i < 2 ^ 64 := by
  unfold toUint64
  omega

/-- C10: for every value pointer whose fields are within their machine
types, `MarshalBinary` succeeds, its output has the fixed length
`valuePointerSize` (the same for every pointer), and `UnmarshalBinary`
applied to that output succeeds and yields the pointer back. -/
theorem valuePointer_marshal_roundtrip (vp : valuePointer) (h : vp.InRange) :
    ∃ data, vp.MarshalBinary = Except.ok data ∧ data.length = valuePointerSize ∧
      valuePointer.UnmarshalBinary data = Except.ok vp := by
  obtain ⟨hs, hlo, hhi, hl⟩ := h
  refine ⟨_, rfl, ?_, ?_⟩
  · simp [putBE_length, valuePointerSize]
  · have h8 : (putBE 8 vp.suffix).length = 8 := putBE_length 8 _
    have h8b : (putBE 8 (toUint64 vp.offset)).length = 8 := putBE_length 8 _
    have h4 : (putBE 4 vp.length).length = 4 := putBE_length 4 _
    have hlen : (putBE 8 vp.suffix ++ putBE 8 (toUint64 vp.offset)
        ++ putBE 4 vp.length).length = 20 := by
      simp [putBE_length]
    have ht1 : (putBE 8 vp.suffix ++ putBE 8 (toUint64 vp.offset)
        ++ putBE 4 vp.length).take 8 = putBE 8 vp.suffix := by
      rw [List.append_assoc, List.take_left' h8]
    have ht2 : ((putBE 8 vp.suffix ++ putBE 8 (toUint64 vp.offset)
        ++ putBE 4 vp.length).drop 8).take 8 = putBE 8 (toUint64 vp.offset) := by
      rw [List.append_assoc, List.drop_left' h8, List.take_left' h8b]
    have ht3 : ((putBE 8 vp.suffix ++ putBE 8 (toUint64 vp.offset)
        ++ putBE 4 vp.length).drop 16).take 4 = putBE 4 vp.length := by
      have h16 : (putBE 8 vp.suffix ++ putBE 8 (toUint64 vp.offset)).length = 16 := by
        simp [putBE_length]
      rw [List.drop_left' h16, List.take_of_length_le (by omega)]
    unfold valuePointer.UnmarshalBinary
    rw [if_neg (by rw [hlen]; decide), ht1, ht2, ht3, getBE_putBE, getBE_putBE,
      getBE_putBE]
    have e1 : vp.suffix % 256 ^ 8 = vp.suffix := Nat.mod_eq_of_lt (by omega)
    have e2 : toUint64 vp.offset % 256 ^ 8 = toUint64 vp.offset :=
      Nat.mod_eq_of_lt (by have := toUint64_lt vp.offset; omega)
    have e3 : vp.length % 256 ^ 4 = vp.length := Nat.mod_eq_of_lt (by omega)
    rw [e1, e2, e3, toInt64_toUint64 _ hlo hhi]

/-- Witness of `valuePointer_marshal_roundtrip`: a pointer with a negative
offset, which exercises the two's complement of the `i64` field. -/
theorem valuePointer_marshal_roundtrip_witness :
    ∃ data, ({ suffix := 7, offset := -2, length := 1036 } : valuePointer).MarshalBinary
        = Except.ok data ∧ data.length = valuePointerSize ∧
      valuePointer.UnmarshalBinary data
        = Except.ok ({ suffix := 7, offset := -2, length := 1036 } : valuePointer) :=
  valuePointer_marshal_roundtrip { suffix := 7, offset := -2, length := 1036 }
    ⟨by decide, by decide, by decide, by decide⟩

end Storage

namespace Storage

/-! ## The value log -/

theorem putLE_length (w n : Nat) : (putLE w n).length = w := by
  induction w generalizing n with
  | zero => rfl
  | succ w ih => simp [putLE, ih]

theorem getLE_putLE (w n : Nat) : getLE (putLE w n) = n % 256 ^ w := by
  induction w generalizing n with
  | zero => simp [putLE, getLE, Nat.mod_one]
  | succ w ih =>
    rw [putLE, getLE, ih, pow_succ, Nat.mul_comm (256 ^ w) 256, Nat.mod_mul]

theorem encodeRecord_length (cd : Codec) (p : List Nat) :
    (encodeRecord cd p).length = cd.headerLength + p.length := by
  simp only [encodeRecord, List.length_append, putLE_length, Codec.headerLength]

/-- Decoding the encoding of a payload that fits gives the payload back,
whatever follows it. -/
theorem decode_encode (cd : Codec) (p rest : List Nat) (hp : Encodable cd p) :
    decodeRecord cd (encodeRecord cd p ++ rest) = Except.ok p := by
  have hlen : p.length < 256 ^ cd.lenWidth := hp.2
  have h4a : (putLE 4 cd.magic).length = 4 := putLE_length 4 _
  have h4b : (putLE cd.lenWidth p.length).length = cd.lenWidth := putLE_length _ _
  have h4c : (putLE 4 (cd.crc32 p)).length = 4 := putLE_length 4 _
  have e : encodeRecord cd p ++ rest =
      putLE 4 cd.magic ++
        (putLE cd.lenWidth p.length ++ (putLE 4 (cd.crc32 p) ++ (p ++ rest))) := by
    simp [encodeRecord]
  have t1 : (encodeRecord cd p ++ rest).take 4 = putLE 4 cd.magic := by
    rw [e, List.take_left' h4a]
  have t2 : ((encodeRecord cd p ++ rest).drop 4).take cd.lenWidth
      = putLE cd.lenWidth p.length := by
    rw [e, List.drop_left' h4a, List.take_left' h4b]
  have t3 : ((encodeRecord cd p ++ rest).drop (4 + cd.lenWidth)).take 4
      = putLE 4 (cd.crc32 p) := by
    have h8 : (putLE 4 cd.magic ++ putLE cd.lenWidth p.length).length = 4 + cd.lenWidth := by
      simp [putLE_length]
    rw [e, ← List.append_assoc, List.drop_left' h8, List.take_left' h4c]
  have t4 : (encodeRecord cd p ++ rest).drop cd.headerLength = p ++ rest := by
    have h12 : (putLE 4 cd.magic ++ putLE cd.lenWidth p.length
        ++ putLE 4 (cd.crc32 p)).length = cd.headerLength := by
      simp only [List.length_append, putLE_length, Codec.headerLength]
    rw [e, ← List.append_assoc, ← List.append_assoc, List.drop_left' h12]
  have hl : p.length % 256 ^ cd.lenWidth = p.length := Nat.mod_eq_of_lt hlen
  unfold decodeRecord
  rw [t1, t2, t3, t4, getLE_putLE, getLE_putLE, getLE_putLE, hl, List.take_left' rfl]
  have c1 : ¬ (encodeRecord cd p ++ rest).length < cd.headerLength := by
    rw [List.length_append, encodeRecord_length]; omega
  have c2 : ¬ cd.magic % 256 ^ 4 ≠ cd.magic % 2 ^ 32 := by
    rw [show (256 : Nat) ^ 4 = 2 ^ 32 by norm_num]; simp
  have c3 : ¬ (p ++ rest).length < p.length := by
    rw [List.length_append]; omega
  have c4 : ¬ cd.crc32 p % 256 ^ 4 ≠ cd.crc32 p % 2 ^ 32 := by
    rw [show (256 : Nat) ^ 4 = 2 ^ 32 by norm_num]; simp
  rw [if_neg c1, if_neg c2, if_neg c3, if_neg c4]

/-- A record that decodes lies within the bytes it was decoded from. -/
theorem decode_length (cd : Codec) (X p : List Nat)
    (h : decodeRecord cd X = Except.ok p) : cd.headerLength + p.length ≤ X.length := by
  unfold decodeRecord at h
  split at h
  · simp at h
  · split at h
    · simp at h
    · split at h
      · simp at h
      · split at h
        · simp at h
        · rename_i h1 _ h3 _
          simp only [Except.ok.injEq] at h
          rw [← h, List.length_take]
          rw [List.length_drop] at h3 ⊢
          omega

/-- A record that decodes still decodes, to the same payload, when bytes
are appended. -/
theorem decode_append (cd : Codec) (X Y p : List Nat)
    (h : decodeRecord cd X = Except.ok p) : decodeRecord cd (X ++ Y) = Except.ok p := by
  unfold decodeRecord at h ⊢
  split at h
  · simp at h
  · rename_i h1
    split at h
    · simp at h
    · rename_i h2
      split at h
      · simp at h
      · rename_i h3
        split at h
        · simp at h
        · rename_i h4
          have hX : cd.headerLength ≤ X.length := by omega
          have hX12 : 4 + cd.lenWidth + 4 ≤ X.length := hX
          have t1 : (X ++ Y).take 4 = X.take 4 := List.take_append_of_le_length (by omega)
          have t2 : ((X ++ Y).drop 4).take cd.lenWidth = (X.drop 4).take cd.lenWidth := by
            rw [List.drop_append_of_le_length (by omega),
              List.take_append_of_le_length (by rw [List.length_drop]; omega)]
          have t3 : ((X ++ Y).drop (4 + cd.lenWidth)).take 4
              = (X.drop (4 + cd.lenWidth)).take 4 := by
            rw [List.drop_append_of_le_length (by omega),
              List.take_append_of_le_length (by rw [List.length_drop]; omega)]
          have t4 : (X ++ Y).drop cd.headerLength = X.drop cd.headerLength ++ Y :=
            List.drop_append_of_le_length hX
          have t5 : (X.drop cd.headerLength ++ Y).take
                (getLE ((X.drop 4).take cd.lenWidth)) =
              (X.drop cd.headerLength).take (getLE ((X.drop 4).take cd.lenWidth)) :=
            List.take_append_of_le_length (by omega)
          rw [t1, t2, t3, t4, t5]
          have c1 : ¬ (X ++ Y).length < cd.headerLength := by
            rw [List.length_append]; omega
          have c3 : ¬ (X.drop cd.headerLength ++ Y).length
              < getLE ((X.drop 4).take cd.lenWidth) := by
            rw [List.length_append]; omega
          rw [if_neg c1, if_neg h2, if_neg c3, if_neg h4]
          exact h

theorem replayFrom_flatten (cd : Codec) :
    ∀ (ps : List (List Nat)) (pre : List Nat) (fuel : Nat),
      (∀ p, p ∈ ps → Encodable cd p) → ps.length < fuel →
      replayFrom cd (pre ++ (ps.map (encodeRecord cd)).flatten) fuel pre.length =
        (pre ++ (ps.map (encodeRecord cd)).flatten).length := by
  intro ps
  induction ps with
  | nil =>
    intro pre fuel _ hfuel
    cases fuel with
    | zero => omega
    | succ f =>
      simp [replayFrom, decodeRecord, Codec.headerLength]
  | cons p ps ih =>
    intro pre fuel henc hfuel
    cases fuel with
    | zero => omega
    | succ f =>
      have hdrop : (pre ++ ((p :: ps).map (encodeRecord cd)).flatten).drop pre.length =
          encodeRecord cd p ++ (ps.map (encodeRecord cd)).flatten := by
        rw [List.drop_left' rfl]; simp
      rw [replayFrom, hdrop, decode_encode cd p _ (henc p (List.mem_cons_self _ _))]
      simp only
      have hpre : (pre ++ encodeRecord cd p).length
          = pre.length + cd.headerLength + p.length := by
        rw [List.length_append, encodeRecord_length]; omega
      have hdata : pre ++ ((p :: ps).map (encodeRecord cd)).flatten =
          (pre ++ encodeRecord cd p) ++ (ps.map (encodeRecord cd)).flatten := by
        simp
      rw [hdata, ← hpre]
      exact ih (pre ++ encodeRecord cd p) f
        (fun q hq => henc q (List.mem_cons_of_mem _ hq))
        (by simp at hfuel; omega)

theorem flatten_encode_length (cd : Codec) (ps : List (List Nat)) :
    ps.length ≤ ((ps.map (encodeRecord cd)).flatten).length := by
  induction ps with
  | nil => simp
  | cons p ps ih =>
    simp only [List.map_cons, List.flatten_cons, List.length_append, List.length_cons,
      encodeRecord_length, Codec.headerLength]
    omega

/-- The replay of a segment that holds whole records goes to its end: it
takes no more steps than it has, and truncates nothing. -/
theorem replay_parsed (cd : Codec) (data : List Nat) (h : Parsed cd data) :
    replay cd data = data.length := by
  obtain ⟨ps, henc, rfl⟩ := h
  have := replayFrom_flatten cd ps [] (((ps.map (encodeRecord cd)).flatten).length + 1) henc
    (by have := flatten_encode_length cd ps; omega)
  simpa [replay] using this

theorem encodeBatch_eq (cd : Codec) (batch : List request) :
    encodeBatch cd batch = ((batch.map (fun r => r.payload)).map (encodeRecord cd)).flatten := by
  induction batch with
  | nil => rfl
  | cons r rs ih => simp [encodeBatch, ih]

theorem parsed_append (cd : Codec) (data : List Nat) (batch : List request)
    (h : Parsed cd data) (hb : ∀ r, r ∈ batch → Encodable cd r.payload) :
    Parsed cd (data ++ encodeBatch cd batch) := by
  obtain ⟨ps, henc, rfl⟩ := h
  refine ⟨ps ++ batch.map (fun r => r.payload), ?_, ?_⟩
  · intro p hp
    rcases List.mem_append.mp hp with h1 | h1
    · exact henc p h1
    · obtain ⟨r, hr, rfl⟩ := List.mem_map.mp h1
      exact hb r hr
  · rw [encodeBatch_eq]; simp

/-- Closing a log in good order and opening its directory again gives the
same log: the replay truncates nothing. -/
theorem reopen_wellFormed (cd : Codec) (vlog : valueLog) (h : vlog.WellFormed cd) :
    newValueLog cd vlog.close vlog.opt = vlog := by
  unfold newValueLog valueLog.close valueLog.files
  simp only
  rw [replay_parsed cd _ h.2, List.take_of_length_le (Nat.le_refl _)]

theorem rotate_wellFormed (cd : Codec) (vlog : valueLog) (canCreate : Bool)
    (h : vlog.WellFormed cd) : (vlog.rotate canCreate).WellFormed cd := by
  unfold valueLog.rotate
  split
  · obtain ⟨hs, _⟩ := h
    refine ⟨?_, ⟨[], by simp, by simp⟩⟩
    simp only [valueLog.files, List.map_cons] at hs ⊢
    rw [List.pairwise_cons] at hs ⊢
    refine ⟨?_, List.pairwise_cons.mpr hs⟩
    intro a ha
    rcases List.mem_cons.mp ha with h1 | h1
    · omega
    · have := hs.1 a h1
      omega
  · exact h

theorem write_wellFormed (cd : Codec) (vlog : valueLog) (batch : List request)
    (fault : Option VlogError) (canCreate : Bool) (h : vlog.WellFormed cd)
    (hb : ∀ r, r ∈ batch → Encodable cd r.payload) :
    (vlog.write cd batch fault canCreate).1.WellFormed cd := by
  cases fault with
  | some e => exact h
  | none =>
    have h1 := rotate_wellFormed cd vlog canCreate h
    exact ⟨h1.1, parsed_append cd _ batch h1.2 hb⟩

theorem gcTS_wellFormed (cd : Codec) (vlog : valueLog) (safeTS : Int)
    (h : vlog.WellFormed cd) : (vlog.gcTS safeTS).WellFormed cd := by
  refine ⟨?_, h.2⟩
  have hs := h.1
  simp only [valueLog.gcTS, valueLog.files, List.map_cons] at hs ⊢
  rw [List.pairwise_cons] at hs ⊢
  refine ⟨?_, ?_⟩
  · intro a ha
    obtain ⟨s, hs1, rfl⟩ := List.mem_map.mp ha
    exact hs.1 _ (List.mem_map_of_mem _ (List.mem_of_mem_filter hs1))
  · exact List.Pairwise.sublist (List.Sublist.map _ (List.filter_sublist _)) hs.2

theorem apply_wellFormed (cd : Codec) (vlog : valueLog) (op : VlogOp)
    (h : vlog.WellFormed cd) (hop : op.Encodable cd) : (vlog.apply cd op).WellFormed cd := by
  cases op with
  | write batch fault canCreate => exact write_wellFormed cd vlog batch fault canCreate h hop
  | reopen =>
    simp only [valueLog.apply]
    rw [reopen_wellFormed cd vlog h]
    exact h
  | gcTS safeTS => exact gcTS_wellFormed cd vlog safeTS h

theorem run_wellFormed (cd : Codec) (ops : List VlogOp) :
    ∀ (vlog : valueLog), vlog.WellFormed cd → (∀ op, op ∈ ops → op.Encodable cd) →
      (vlog.run cd ops).WellFormed cd := by
  induction ops with
  | nil => intro vlog h _; exact h
  | cons op rest ih =>
    intro vlog h hops
    exact ih (vlog.apply cd op)
      (apply_wellFormed cd vlog op h (hops op (List.mem_cons_self _ _)))
      (fun x hx => hops x (List.mem_cons_of_mem _ hx))

theorem newValueLog_empty_wellFormed (cd : Codec) (opt : Options) :
    (newValueLog cd [] opt).WellFormed cd := by
  refine ⟨?_, ⟨[], by simp, by simp [newValueLog]⟩⟩
  simp [newValueLog, valueLog.files]

end Storage

namespace Storage

theorem rotate_cur_suffix (vlog : valueLog) (canCreate : Bool) :
    vlog.cur.suffix ≤ (vlog.rotate canCreate).cur.suffix := by
  unfold valueLog.rotate
  split
  · simp
  · exact Nat.le_refl _

theorem rotate_holds (cd : Codec) (vlog : valueLog) (canCreate : Bool)
    (vp : valuePointer) (p : List Nat) (h : vlog.Holds cd vp p) :
    (vlog.rotate canCreate).Holds cd vp p := by
  unfold valueLog.rotate
  split
  · obtain ⟨hle, hall⟩ := h
    refine ⟨by simp only; omega, ?_⟩
    intro s hs hsuf
    simp only [valueLog.files, List.mem_cons] at hs
    rcases hs with h1 | h1 | h1
    · subst h1
      simp only at hsuf
      omega
    · exact hall s (by simp [valueLog.files, h1]) hsuf
    · exact hall s (by simp [valueLog.files, h1]) hsuf
  · exact h

theorem write_holds (cd : Codec) (vlog : valueLog) (batch : List request)
    (fault : Option VlogError) (canCreate : Bool) (vp : valuePointer) (p : List Nat)
    (h : vlog.Holds cd vp p) : (vlog.write cd batch fault canCreate).1.Holds cd vp p := by
  cases fault with
  | some e => exact h
  | none =>
    obtain ⟨hle, hall⟩ := rotate_holds cd vlog canCreate vp p h
    refine ⟨hle, ?_⟩
    intro s hs hsuf
    simp only [valueLog.write, valueLog.files, List.mem_cons] at hs
    rcases hs with h1 | h1
    · subst h1
      simp only at hsuf ⊢
      obtain ⟨h0, hdec⟩ := hall (vlog.rotate canCreate).cur (by simp [valueLog.files]) hsuf
      refine ⟨h0, ?_⟩
      have hlen := decode_length cd _ p hdec
      rw [List.length_drop] at hlen
      rw [List.drop_append_of_le_length (by unfold Codec.headerLength at hlen; omega)]
      exact decode_append cd _ _ p hdec
    · exact hall s (by simp [valueLog.files, h1]) hsuf

theorem gcTS_holds (cd : Codec) (vlog : valueLog) (safeTS : Int) (vp : valuePointer)
    (p : List Nat) (h : vlog.Holds cd vp p) : (vlog.gcTS safeTS).Holds cd vp p := by
  obtain ⟨hle, hall⟩ := h
  refine ⟨hle, ?_⟩
  intro s hs hsuf
  simp only [valueLog.gcTS, valueLog.files, List.mem_cons] at hs
  rcases hs with h1 | h1
  · exact hall s (by simp [valueLog.files, h1]) hsuf
  · exact hall s (by simp [valueLog.files, List.mem_of_mem_filter h1]) hsuf

theorem apply_holds (cd : Codec) (vlog : valueLog) (op : VlogOp) (vp : valuePointer)
    (p : List Nat) (hwf : vlog.WellFormed cd) (h : vlog.Holds cd vp p) :
    (vlog.apply cd op).Holds cd vp p := by
  cases op with
  | write batch fault canCreate => exact write_holds cd vlog batch fault canCreate vp p h
  | reopen =>
    simp only [valueLog.apply]
    rw [reopen_wellFormed cd vlog hwf]
    exact h
  | gcTS safeTS => exact gcTS_holds cd vlog safeTS vp p h

theorem run_holds (cd : Codec) (ops : List VlogOp) (vp : valuePointer) (p : List Nat) :
    ∀ (vlog : valueLog), vlog.WellFormed cd → (∀ op, op ∈ ops → op.Encodable cd) →
      vlog.Holds cd vp p → (vlog.run cd ops).Holds cd vp p := by
  induction ops with
  | nil => intro vlog _ _ h; exact h
  | cons op rest ih =>
    intro vlog hwf hops h
    exact ih (vlog.apply cd op)
      (apply_wellFormed cd vlog op hwf (hops op (List.mem_cons_self _ _)))
      (fun x hx => hops x (List.mem_cons_of_mem _ hx))
      (apply_holds cd vlog op vp p hwf h)

/-- Where the value pointers of a batch point: each request of the batch
gets the suffix of the segment, and at its offset, in the segment with the
batch appended (and whatever follows), its own record decodes. -/
theorem assignPointers_decode (cd : Codec) (suffix : Nat) :
    ∀ (batch : List request) (pre : List Nat),
      (∀ r, r ∈ batch → Encodable cd r.payload) →
      ∀ r, r ∈ assignPointers cd suffix pre.length batch →
        r.valuePointer.suffix = suffix ∧ 0 ≤ r.valuePointer.offset ∧
        decodeRecord cd ((pre ++ encodeBatch cd batch).drop r.valuePointer.offset.toNat)
          = Except.ok r.payload := by
  intro batch
  induction batch with
  | nil => intro pre _ r hr; simp [assignPointers] at hr
  | cons b bs ih =>
    intro pre henc r hr
    simp only [assignPointers, List.mem_cons] at hr
    rcases hr with h1 | h1
    · subst h1
      refine ⟨rfl, by simp, ?_⟩
      simp only [Int.toNat_ofNat, encodeBatch]
      rw [List.drop_left' rfl]
      exact decode_encode cd b.payload _ (henc b (List.mem_cons_self _ _))
    · have hpre : (pre ++ encodeRecord cd b.payload).length
          = pre.length + cd.headerLength + b.payload.length := by
        rw [List.length_append, encodeRecord_length]; omega
      rw [← hpre] at h1
      have := ih (pre ++ encodeRecord cd b.payload)
        (fun x hx => henc x (List.mem_cons_of_mem _ hx)) r h1
      simpa [encodeBatch, List.append_assoc] using this

theorem assignPointers_payloads (cd : Codec) (suffix : Nat) :
    ∀ (batch : List request) (off : Nat),
      (assignPointers cd suffix off batch).map (fun r => r.payload)
        = batch.map (fun r => r.payload) := by
  intro batch
  induction batch with
  | nil => intro off; rfl
  | cons b bs ih => intro off; simp [assignPointers, ih]

/-- A successful write leaves every record of the batch where its value
pointer points. -/
theorem write_establishes (cd : Codec) (vlog : valueLog) (batch : List request)
    (canCreate : Bool) (hwf : vlog.WellFormed cd)
    (hb : ∀ r, r ∈ batch → Encodable cd r.payload) :
    ∀ r, r ∈ (vlog.write cd batch none canCreate).2.1 →
      (vlog.write cd batch none canCreate).1.Holds cd r.valuePointer r.payload := by
  intro r hr
  have hwf1 := rotate_wellFormed cd vlog canCreate hwf
  simp only [valueLog.write] at hr ⊢
  obtain ⟨hsuf, h0, hdec⟩ :=
    assignPointers_decode cd (vlog.rotate canCreate).cur.suffix batch
      (vlog.rotate canCreate).cur.data hb r hr
  refine ⟨by simp only; omega, ?_⟩
  intro s hs hs2
  simp only [valueLog.files, List.mem_cons] at hs
  rcases hs with h1 | h1
  · subst h1
    exact ⟨h0, hdec⟩
  · have hsorted := hwf1.1
    simp only [valueLog.files, List.map_cons, List.pairwise_cons] at hsorted
    have := hsorted.1 s.suffix (List.mem_map_of_mem _ h1)
    omega

end Storage

namespace Storage

theorem readValue_of_holds (cd : Codec) (vlog : valueLog) (vp : valuePointer)
    (p : List Nat) (h : vlog.Holds cd vp p)
    (hseg : ∃ s, s ∈ vlog.files ∧ s.suffix = vp.suffix) :
    vlog.readValue cd vp = Except.ok p := by
  unfold valueLog.readValue
  cases hf : vlog.files.find? (fun s => decide (s.suffix = vp.suffix)) with
  | none =>
    obtain ⟨s, hs, hsuf⟩ := hseg
    have := List.find?_eq_none.mp hf s hs
    simp [hsuf] at this
  | some s =>
    have hs : s ∈ vlog.files := List.mem_of_find?_eq_some hf
    have hsuf : s.suffix = vp.suffix := by
      have := List.find?_some hf
      simpa using this
    obtain ⟨h0, hdec⟩ := h.2 s hs hsuf
    simp only
    rw [if_neg (by omega)]
    exact hdec

/-- C1: for every batch of requests (with payloads that fit the record
header) for which `vlog.write` succeeds, on a log opened on an empty
directory and taken through any writes, reopenings and collections, and for
every request `r` of the batch as `write` returns it, `readValue` on the
value pointer of `r` succeeds and returns exactly the payload of `r`, as
long as a segment with the suffix of `r` is still there; this after any
further operations: writes of further batches, closing the log and opening
it again on the same directory, garbage collections. The payloads of the
batch are the ones passed in. -/
theorem write_then_readValue (cd : Codec) (opt : Options) (before after : List VlogOp)
    (batch : List request) (fault : Option VlogError) (canCreate : Bool)
    (hbefore : ∀ op, op ∈ before → op.Encodable cd)
    (hbatch : ∀ r, r ∈ batch → Encodable cd r.payload)
    (hafter : ∀ op, op ∈ after → op.Encodable cd)
    (hok : ((logAfter cd opt before).write cd batch fault canCreate).2.2 = none) :
    (((logAfter cd opt before).write cd batch fault canCreate).2.1.map (fun r => r.payload)
        = batch.map (fun r => r.payload)) ∧
      ∀ r, r ∈ ((logAfter cd opt before).write cd batch fault canCreate).2.1 →
        (∃ s, s ∈ (((logAfter cd opt before).write cd batch fault canCreate).1.run cd
            after).files ∧ s.suffix = r.valuePointer.suffix) →
        (((logAfter cd opt before).write cd batch fault canCreate).1.run cd after).readValue
          cd r.valuePointer = Except.ok r.payload := by
  have hf : fault = none := by
    cases fault with
    | none => rfl
    | some e => simp [valueLog.write] at hok
  subst hf
  have hwf : (logAfter cd opt before).WellFormed cd :=
    run_wellFormed cd before _ (newValueLog_empty_wellFormed cd opt) hbefore
  refine ⟨assignPointers_payloads cd _ batch _, ?_⟩
  intro r hr hseg
  have hwf1 := write_wellFormed cd _ batch none canCreate hwf hbatch
  have hholds := write_establishes cd _ batch canCreate hwf hbatch r hr
  exact readValue_of_holds cd _ _ _
    (run_holds cd after r.valuePointer r.payload _ hwf1 hafter hholds) hseg

end Storage

namespace Storage

/-- Witness of `write_then_readValue`: the batch `[reqA, reqB]` written to a
fresh log with a segment cap of 20 bytes, followed by `sampleAfter`. -/
theorem write_then_readValue_witness :
    ((((logAfter sampleCodec { valueLogFileSize := 20 } []).write sampleCodec
        [reqA, reqB] none true).2.1.map (fun r => r.payload)
        = [reqA, reqB].map (fun r => r.payload)) ∧
      ∀ r, r ∈ ((logAfter sampleCodec { valueLogFileSize := 20 } []).write sampleCodec
          [reqA, reqB] none true).2.1 →
        (∃ s, s ∈ (((logAfter sampleCodec { valueLogFileSize := 20 } []).write sampleCodec
            [reqA, reqB] none true).1.run sampleCodec sampleAfter).files ∧
            s.suffix = r.valuePointer.suffix) →
        (((logAfter sampleCodec { valueLogFileSize := 20 } []).write sampleCodec
            [reqA, reqB] none true).1.run sampleCodec sampleAfter).readValue
          sampleCodec r.valuePointer = Except.ok r.payload) :=
  write_then_readValue sampleCodec { valueLogFileSize := 20 } [] sampleAfter [reqA, reqB]
    none true
    (by intro op hop; simp at hop)
    (by
      intro r hr
      simp only [List.mem_cons, List.mem_singleton, List.not_mem_nil, or_false] at hr
      rcases hr with rfl | rfl
      · simp [Encodable, Codec.headerLength, sampleCodec, reqA]
      · simp [Encodable, Codec.headerLength, sampleCodec, reqB])
    (by
      intro op hop
      simp only [sampleAfter, List.mem_cons, List.mem_singleton, List.not_mem_nil,
        or_false] at hop
      rcases hop with rfl | rfl | rfl
      · trivial
      · intro r hr
        simp only [List.mem_singleton] at hr
        subst hr
        simp [Encodable, Codec.headerLength, sampleCodec, reqC]
      · trivial)
    rfl

end Storage

namespace Storage

/-! ## Skipping the recovery -/

/-- C13: in every pass of `Run` whose first `catchUp` succeeded, the
recovery is skipped if and only if the measured catch-up time is at least
`slowCatchUpThreshold` (one second) or the time elapsed since
`lastRecoverAttempt` is at most `recoveryCoolDown` (one minute). When it is
skipped the pass ends with the chaser the first `catchUp` left: no
`WriteLock` taken, `lastRecoverAttempt` unchanged, the chaser still on.
Otherwise the pass is the recovery attempt, which sets `lastRecoverAttempt`
to the clock. For a chaser that has never attempted a recovery
(`lastRecoverAttempt` is the zero time) the cool-down condition is false as
soon as the clock reads more than a minute past the zero time. -/
theorem skip_recovery_iff (sc sc1 : slowChaser) (env : IterEnv)
    (hwait : env.waitEntryDone = none) (hfuel : 0 < env.waitFuel)
    (hon : sc.IsOn = true)
    (hc : sc.catchUp env.vlog1 env.ctx = some (sc1, none)) :
    ((sc.runIter env).2 = IterResult.skipRecovery ↔
        (slowCatchUpThreshold ≤ timeSince env.t1 env.t0 ∨
          timeSince env.t2 sc.lastRecoverAttempt ≤ recoveryCoolDown)) ∧
      ((slowCatchUpThreshold ≤ timeSince env.t1 env.t0 ∨
          timeSince env.t2 sc.lastRecoverAttempt ≤ recoveryCoolDown) →
        sc.runIter env = (sc1, IterResult.skipRecovery) ∧
          sc1.WriteLock = sc.WriteLock ∧
          sc1.lastRecoverAttempt = sc.lastRecoverAttempt ∧ sc1.IsOn = true) ∧
      (¬ (slowCatchUpThreshold ≤ timeSince env.t1 env.t0 ∨
          timeSince env.t2 sc.lastRecoverAttempt ≤ recoveryCoolDown) →
        sc.runIter env = sc1.recover env.t3 env.vlog2 env.timeoutCtx ∧
          ((sc.runIter env).2 = IterResult.recovered ∨
            (sc.runIter env).2 = IterResult.recoverFailed) ∧
          (sc.runIter env).1.lastRecoverAttempt = env.t3) ∧
      (sc.lastRecoverAttempt = 0 → recoveryCoolDown < env.t2 →
        ¬ timeSince env.t2 sc.lastRecoverAttempt ≤ recoveryCoolDown) := by
  obtain ⟨hon1, hl1, hr1, _, hp1⟩ := catchUp_frame sc sc1 _ _ _ hc
  have hp : ∃ p, sc.lastUnreadPtr = some p := by
    cases hq : sc.lastUnreadPtr with
    | none => simp [slowChaser.catchUp, hq] at hc
    | some p => exact ⟨p, rfl⟩
  obtain ⟨p, hp⟩ := hp
  have hrun := runIter_on sc env p hwait hfuel hon hp
  rw [hc] at hrun
  simp only at hrun
  rw [hr1] at hrun
  have hon1b : sc1.IsOn = true := by
    simp only [slowChaser.IsOn] at hon ⊢
    rw [hon1]; exact hon
  have hrec : ∀ (now : Int) (vlog : valLogScanner) (ctx : Context),
      ((sc1.recover now vlog ctx).2 = IterResult.recovered ∨
        (sc1.recover now vlog ctx).2 = IterResult.recoverFailed) ∧
      (sc1.recover now vlog ctx).1.lastRecoverAttempt = now := by
    intro now vlog ctx
    obtain ⟨q, hq⟩ := Option.ne_none_iff_exists'.mp hp1
    have hq2 : ({ sc1 with lastRecoverAttempt := now, WriteLock := true } :
        slowChaser).lastUnreadPtr = some q := hq
    obtain ⟨sc3, err, hc3⟩ := catchUp_returns _ q vlog ctx hq2
    obtain ⟨_, _, hr3, _, _⟩ := catchUp_frame _ sc3 _ _ _ hc3
    unfold slowChaser.recover
    simp only
    rw [hc3]
    cases err with
    | none => exact ⟨Or.inl rfl, hr3⟩
    | some e => exact ⟨Or.inr rfl, hr3⟩
  by_cases hcond : slowCatchUpThreshold ≤ timeSince env.t1 env.t0 ∨
      timeSince env.t2 sc.lastRecoverAttempt ≤ recoveryCoolDown
  · have hif : (decide (timeSince env.t1 env.t0 ≥ slowCatchUpThreshold) ||
        decide (timeSince env.t2 sc.lastRecoverAttempt ≤ recoveryCoolDown)) = true := by
      simpa using hcond
    rw [if_pos hif] at hrun
    refine ⟨?_, ?_, ?_, ?_⟩
    · rw [hrun]; simp [hcond]
    · intro _; exact ⟨hrun, hl1, hr1, hon1b⟩
    · intro hn; exact absurd hcond hn
    · intro h0 ht
      rw [h0]
      unfold timeSince timeSub recoveryCoolDown maxDuration minDuration at *
      split <;> [omega; (split <;> omega)]
  · have hif : ¬ (decide (timeSince env.t1 env.t0 ≥ slowCatchUpThreshold) ||
        decide (timeSince env.t2 sc.lastRecoverAttempt ≤ recoveryCoolDown)) = true := by
      simpa using hcond
    rw [if_neg hif] at hrun
    obtain ⟨htag, hlast⟩ := hrec env.t3 env.vlog2 env.timeoutCtx
    refine ⟨?_, ?_, ?_, ?_⟩
    · rw [hrun]
      constructor
      · intro hs
        rcases htag with h1 | h1 <;> rw [h1] at hs <;> simp at hs
      · intro h; exact absurd h hcond
    · intro h; exact absurd h hcond
    · intro _
      rw [hrun]
      exact ⟨rfl, htag, hlast⟩
    · intro h0 ht
      rw [h0]
      unfold timeSince timeSub recoveryCoolDown maxDuration minDuration at *
      split <;> [omega; (split <;> omega)]

end Storage

namespace Storage

/-- Witness of `skip_recovery_iff`: the chaser armed at `reqA` on the log
`[reqA, reqB]`, in a pass whose first catch-up takes two seconds. -/
theorem skip_recovery_iff_witness :
    ((armedAtA.runIter (slowIter [reqA, reqB] 100000000000)).2 = IterResult.skipRecovery ↔
        (slowCatchUpThreshold ≤
            timeSince (slowIter [reqA, reqB] 100000000000).t1
              (slowIter [reqA, reqB] 100000000000).t0 ∨
          timeSince (slowIter [reqA, reqB] 100000000000).t2 armedAtA.lastRecoverAttempt
            ≤ recoveryCoolDown)) ∧
      ((slowCatchUpThreshold ≤
            timeSince (slowIter [reqA, reqB] 100000000000).t1
              (slowIter [reqA, reqB] 100000000000).t0 ∨
          timeSince (slowIter [reqA, reqB] 100000000000).t2 armedAtA.lastRecoverAttempt
            ≤ recoveryCoolDown) →
        armedAtA.runIter (slowIter [reqA, reqB] 100000000000)
            = (caughtUpAtB, IterResult.skipRecovery) ∧
          caughtUpAtB.WriteLock = armedAtA.WriteLock ∧
          caughtUpAtB.lastRecoverAttempt = armedAtA.lastRecoverAttempt ∧
          caughtUpAtB.IsOn = true) ∧
      (¬ (slowCatchUpThreshold ≤
            timeSince (slowIter [reqA, reqB] 100000000000).t1
              (slowIter [reqA, reqB] 100000000000).t0 ∨
          timeSince (slowIter [reqA, reqB] 100000000000).t2 armedAtA.lastRecoverAttempt
            ≤ recoveryCoolDown) →
        armedAtA.runIter (slowIter [reqA, reqB] 100000000000) =
            caughtUpAtB.recover (slowIter [reqA, reqB] 100000000000).t3
              (slowIter [reqA, reqB] 100000000000).vlog2
              (slowIter [reqA, reqB] 100000000000).timeoutCtx ∧
          ((armedAtA.runIter (slowIter [reqA, reqB] 100000000000)).2
              = IterResult.recovered ∨
            (armedAtA.runIter (slowIter [reqA, reqB] 100000000000)).2
              = IterResult.recoverFailed) ∧
          (armedAtA.runIter (slowIter [reqA, reqB] 100000000000)).1.lastRecoverAttempt
            = (slowIter [reqA, reqB] 100000000000).t3) ∧
      (armedAtA.lastRecoverAttempt = 0 →
        recoveryCoolDown < (slowIter [reqA, reqB] 100000000000).t2 →
        ¬ timeSince (slowIter [reqA, reqB] 100000000000).t2 armedAtA.lastRecoverAttempt
          ≤ recoveryCoolDown) :=
  skip_recovery_iff armedAtA caughtUpAtB (slowIter [reqA, reqB] 100000000000)
    rfl (by decide) rfl (by decide)

/-! ## Waiting to be turned on -/

theorem waitLoop_nil (env : WaitEnv) :
    ∀ (fuel k : Nat), waitLoop env fuel k = some none →
      ∃ j, k ≤ j ∧ j < k + fuel ∧ env.isOn j = true ∧
        ∀ i, k ≤ i → i < j → env.isOn i = false ∧ env.roundDone i = none := by
  intro fuel
  induction fuel with
  | zero => intro k h; simp [waitLoop] at h
  | succ n ih =>
    intro k h
    simp only [waitLoop] at h
    cases hon : env.isOn k with
    | true => exact ⟨k, Nat.le_refl k, by omega, hon, fun i h1 h2 => by omega⟩
    | false =>
      simp only [hon, Bool.false_eq_true, if_false] at h
      cases hrd : env.roundDone k with
      | some e => simp [hrd] at h
      | none =>
        simp only [hrd] at h
        obtain ⟨j, hj1, hj2, hj3, hj4⟩ := ih (k + 1) h
        refine ⟨j, by omega, by omega, hj3, ?_⟩
        intro i hi1 hi2
        by_cases hik : i = k
        · subst hik; exact ⟨hon, hrd⟩
        · exact hj4 i (by omega) hi2

theorem waitLoop_err (env : WaitEnv) :
    ∀ (fuel k : Nat) (e : Error), waitLoop env fuel k = some (some e) →
      ∃ j c, k ≤ j ∧ j < k + fuel ∧ e = Error.ctx c ∧ env.roundDone j = some c ∧
        ∀ i, k ≤ i → i ≤ j → env.isOn i = false := by
  intro fuel
  induction fuel with
  | zero => intro k e h; simp [waitLoop] at h
  | succ n ih =>
    intro k e h
    simp only [waitLoop] at h
    cases hon : env.isOn k with
    | true => simp [hon] at h
    | false =>
      simp only [hon, Bool.false_eq_true, if_false] at h
      cases hrd : env.roundDone k with
      | some c =>
        simp only [hrd, Option.some.injEq] at h
        refine ⟨k, c, Nat.le_refl k, by omega, h.symm, hrd, ?_⟩
        intro i h1 h2
        have : i = k := by omega
        subst this; exact hon
      | none =>
        simp only [hrd] at h
        obtain ⟨j, c, hj1, hj2, hj3, hj4, hj5⟩ := ih (k + 1) e h
        refine ⟨j, c, by omega, by omega, hj3, hj4, ?_⟩
        intro i hi1 hi2
        by_cases hik : i = k
        · subst hik; exact hon
        · exact hj5 i (by omega) hi2

theorem waitLoop_returns (env : WaitEnv) :
    ∀ (fuel k j : Nat), k ≤ j → j < k + fuel →
      (env.isOn j = true ∨ env.roundDone j ≠ none) → waitLoop env fuel k ≠ none := by
  intro fuel
  induction fuel with
  | zero => intro k j h1 h2; omega
  | succ n ih =>
    intro k j h1 h2 hj
    simp only [waitLoop]
    cases hon : env.isOn k with
    | true => simp
    | false =>
      simp only [Bool.false_eq_true, if_false]
      cases hrd : env.roundDone k with
      | some c => simp
      | none =>
        simp only
        have hjk : j ≠ k := by
          intro h; subst h
          rcases hj with h | h
          · rw [hon] at h; exact absurd h (by decide)
          · exact h hrd
        exact ih (k + 1) j (by omega) (by omega) hj

/-- C14: `waitUntilTurnedOn` returns nil only if the chaser was observed on
(at a test of `IsOn()` before which the context was never seen done), and
it returns an error only if the context is done, that error being the
context's error (`context.Canceled` on cancellation). When the context is
not done at entry and the chaser is already on, it returns nil at the first
test, without waiting for the ticker; when the context is already done at
entry it returns the context's error even if the chaser is on. It returns
as soon as the chaser is on or the context is done. -/
theorem waitUntilTurnedOn_contract (env : WaitEnv) (fuel : Nat) :
    (waitUntilTurnedOn env fuel = some none →
        env.entryDone = none ∧ ∃ j, j < fuel ∧ env.isOn j = true ∧
          ∀ i, i < j → env.isOn i = false ∧ env.roundDone i = none) ∧
      (∀ e, waitUntilTurnedOn env fuel = some (some e) →
        ∃ c, e = Error.ctx c ∧
          (env.entryDone = some c ∨
            (env.entryDone = none ∧ ∃ j, j < fuel ∧ env.roundDone j = some c ∧
              ∀ i, i ≤ j → env.isOn i = false))) ∧
      (env.entryDone = none → env.isOn 0 = true → 0 < fuel →
        waitUntilTurnedOn env fuel = some none) ∧
      (∀ c, env.entryDone = some c →
        waitUntilTurnedOn env fuel = some (some (Error.ctx c))) ∧
      (env.entryDone = some CtxErr.Canceled →
        waitUntilTurnedOn env fuel = some (some (Error.ctx CtxErr.Canceled))) ∧
      (∀ j, j < fuel → (env.isOn j = true ∨ env.roundDone j ≠ none) →
        waitUntilTurnedOn env fuel ≠ none) := by
  refine ⟨?_, ?_, ?_, ?_, ?_, ?_⟩
  · intro h
    cases hed : env.entryDone with
    | some c => simp [waitUntilTurnedOn, hed] at h
    | none =>
      simp only [waitUntilTurnedOn, hed] at h
      obtain ⟨j, _, hj2, hj3, hj4⟩ := waitLoop_nil env fuel 0 h
      exact ⟨rfl, j, by omega, hj3, fun i hi => hj4 i (Nat.zero_le i) hi⟩
  · intro e h
    cases hed : env.entryDone with
    | some c =>
      simp only [waitUntilTurnedOn, hed, Option.some.injEq] at h
      exact ⟨c, h.symm, Or.inl rfl⟩
    | none =>
      simp only [waitUntilTurnedOn, hed] at h
      obtain ⟨j, c, _, hj2, hj3, hj4, hj5⟩ := waitLoop_err env fuel 0 e h
      exact ⟨c, hj3, Or.inr ⟨rfl, j, by omega, hj4, fun i hi => hj5 i (Nat.zero_le i) hi⟩⟩
  · intro hed hon hfuel
    cases fuel with
    | zero => omega
    | succ n => simp [waitUntilTurnedOn, hed, waitLoop, hon]
  · intro c hed
    simp [waitUntilTurnedOn, hed]
  · intro hed
    simp [waitUntilTurnedOn, hed]
  · intro j hj hev
    cases hed : env.entryDone with
    | some c => simp [waitUntilTurnedOn, hed]
    | none =>
      simp only [waitUntilTurnedOn, hed]
      exact waitLoop_returns env fuel 0 j (Nat.zero_le j) (by omega) hev

end Storage

namespace Arbiter

/-! ## The configuration -/

/-- What `adjustConfig` computes, field by field. -/
theorem adjustConfig_eq (cfg : Config) :
    cfg.adjustConfig =
      ({ cfg with
          Up := { cfg.Up with
            KafkaAddrs :=
              if cfg.Up.KafkaAddrs.length = 0 then "127.0.0.1:9092" else cfg.Up.KafkaAddrs,
            KafkaVersion :=
              if cfg.Up.KafkaVersion.length = 0 then "0.8.2.0" else cfg.Up.KafkaVersion },
          Down := { cfg.Down with
            Host := if cfg.Down.Host.length = 0 then "localhost" else cfg.Down.Host,
            Port := if cfg.Down.Port = 0 then 3306 else cfg.Down.Port,
            User := if cfg.Down.User.length = 0 then "root" else cfg.Down.User } },
        none) := by
  unfold Config.adjustConfig defaultKafkaAddrs defaultKafkaVersion
  by_cases h1 : cfg.Up.KafkaAddrs.length = 0 <;>
  by_cases h2 : cfg.Up.KafkaVersion.length = 0 <;>
  by_cases h3 : cfg.Down.Host.length = 0 <;>
  by_cases h4 : cfg.Down.Port = 0 <;>
  by_cases h5 : cfg.Down.User.length = 0 <;>
  simp only [h1, h2, h3, h4, h5, if_true, if_false]

/-- C16: for every `Config`, `adjustConfig` returns nil and changes only
fields that are empty or zero. Afterwards `Up.KafkaAddrs`,
`Up.KafkaVersion`, `Down.Host` and `Down.User` are non-empty and `Down.Port`
is non-zero, the defaults being `"127.0.0.1:9092"`, `"0.8.2.0"`,
`"localhost"`, `"root"` and `3306`; each of the five that was already
non-empty or non-zero keeps its value; every other field is unchanged; and
applying `adjustConfig` twice gives the same `Config` as applying it
once. -/
theorem adjustConfig_defaults (cfg : Config) :
    cfg.adjustConfig.2 = none ∧
      cfg.adjustConfig.1.Up.KafkaAddrs =
        (if cfg.Up.KafkaAddrs.length = 0 then "127.0.0.1:9092" else cfg.Up.KafkaAddrs) ∧
      cfg.adjustConfig.1.Up.KafkaVersion =
        (if cfg.Up.KafkaVersion.length = 0 then "0.8.2.0" else cfg.Up.KafkaVersion) ∧
      cfg.adjustConfig.1.Down.Host =
        (if cfg.Down.Host.length = 0 then "localhost" else cfg.Down.Host) ∧
      cfg.adjustConfig.1.Down.Port = (if cfg.Down.Port = 0 then 3306 else cfg.Down.Port) ∧
      cfg.adjustConfig.1.Down.User =
        (if cfg.Down.User.length = 0 then "root" else cfg.Down.User) ∧
      (cfg.adjustConfig.1.Up.KafkaAddrs.length ≠ 0 ∧
        cfg.adjustConfig.1.Up.KafkaVersion.length ≠ 0 ∧
        cfg.adjustConfig.1.Down.Host.length ≠ 0 ∧
        cfg.adjustConfig.1.Down.Port ≠ 0 ∧
        cfg.adjustConfig.1.Down.User.length ≠ 0) ∧
      cfg.adjustConfig.1 =
        { cfg with
          Up := { cfg.Up with
            KafkaAddrs := cfg.adjustConfig.1.Up.KafkaAddrs,
            KafkaVersion := cfg.adjustConfig.1.Up.KafkaVersion },
          Down := { cfg.Down with
            Host := cfg.adjustConfig.1.Down.Host,
            Port := cfg.adjustConfig.1.Down.Port,
            User := cfg.adjustConfig.1.Down.User } } ∧
      cfg.adjustConfig.1.adjustConfig = cfg.adjustConfig := by
  have heq := adjustConfig_eq cfg
  have hne : cfg.adjustConfig.1.Up.KafkaAddrs.length ≠ 0 ∧
        cfg.adjustConfig.1.Up.KafkaVersion.length ≠ 0 ∧
        cfg.adjustConfig.1.Down.Host.length ≠ 0 ∧
        cfg.adjustConfig.1.Down.Port ≠ 0 ∧
        cfg.adjustConfig.1.Down.User.length ≠ 0 := by
    rw [heq]
    simp only
    refine ⟨?_, ?_, ?_, ?_, ?_⟩ <;> (split_ifs <;> first | decide | assumption)
  refine ⟨by rw [heq], by rw [heq], by rw [heq], by rw [heq], by rw [heq], by rw [heq],
    hne, by rw [heq], ?_⟩
  obtain ⟨n1, n2, n3, n4, n5⟩ := hne
  have h2 := adjustConfig_eq cfg.adjustConfig.1
  rw [if_neg n1, if_neg n2, if_neg n3, if_neg n4, if_neg n5] at h2
  rw [h2, heq]

end Arbiter

namespace Syncer

/-! ## The print syncer -/

/-- The row printers panic only at a column without a type. -/
theorem printInsertOrDeleteEvent_returns (libs : Libs)
    (htyped : ∀ c col, libs.Unmarshal c = Except.ok col → col.Tp ≠ []) :
    ∀ row, ∃ err, (printInsertOrDeleteEvent libs row).2 = Outcome.returned err := by
  intro row
  induction row with
  | nil => exact ⟨none, rfl⟩
  | cons c rest ih =>
    simp only [printInsertOrDeleteEvent]
    cases hu : libs.Unmarshal c with
    | error e => exact ⟨_, rfl⟩
    | ok col =>
      simp only
      cases hd : libs.DecodeOne col.Value with
      | error e => exact ⟨_, rfl⟩
      | ok val =>
        simp only
        cases ht : col.Tp with
        | nil => exact absurd ht (htyped c col hu)
        | cons tp tps => exact ih

theorem printUpdateEvent_returns (libs : Libs)
    (htyped : ∀ c col, libs.Unmarshal c = Except.ok col → col.Tp ≠ []) :
    ∀ row, ∃ err, (printUpdateEvent libs row).2 = Outcome.returned err := by
  intro row
  induction row with
  | nil => exact ⟨none, rfl⟩
  | cons c rest ih =>
    simp only [printUpdateEvent]
    cases hu : libs.Unmarshal c with
    | error e => exact ⟨_, rfl⟩
    | ok col =>
      simp only
      cases hd : libs.DecodeOne col.Value with
      | error e => exact ⟨_, rfl⟩
      | ok val =>
        simp only
        cases hd2 : libs.DecodeOne col.ChangedValue with
        | error e => exact ⟨_, rfl⟩
        | ok changedVal =>
          simp only
          cases ht : col.Tp with
          | nil => exact absurd ht (htyped c col hu)
          | cons tp tps => exact ih

theorem printEvent_returns (libs : Libs)
    (htyped : ∀ c col, libs.Unmarshal c = Except.ok col → col.Tp ≠ []) (event : Event) :
    (printEvent libs event).2 = Outcome.returned () := by
  unfold printEvent
  cases event.Tp with
  | Insert =>
    obtain ⟨err, herr⟩ := printInsertOrDeleteEvent_returns libs htyped event.Row
    simp only [herr]
    cases err <;> rfl
  | Update =>
    obtain ⟨err, herr⟩ := printUpdateEvent_returns libs htyped event.Row
    simp only [herr]
    cases err <;> rfl
  | Delete =>
    obtain ⟨err, herr⟩ := printInsertOrDeleteEvent_returns libs htyped event.Row
    simp only [herr]
    cases err <;> rfl
  | unknown n => rfl

theorem printEvents_returns (libs : Libs)
    (htyped : ∀ c col, libs.Unmarshal c = Except.ok col → col.Tp ≠ []) :
    ∀ events, (printEvents libs events).2 = Outcome.returned () := by
  intro events
  induction events with
  | nil => rfl
  | cons event rest ih =>
    simp only [printEvents]
    have h := printEvent_returns libs htyped event
    generalize printEvent libs event = r at h
    obtain ⟨p, o⟩ := r
    simp only at h
    subst h
    exact ih

/-- What `Sync` does where it does not panic: a DDL binlog always, and a
DML binlog when every column that unmarshals has a type, end with nil and
one call of `cb`, with the binlog itself, whether or not printing an event
failed; any other type ends with an error and no call of `cb`. -/
theorem Sync_typed (libs : Libs) (b : Binlog) :
    (b.Tp = BinlogType.DDL →
        (Sync libs b).outcome = Outcome.returned none ∧ (Sync libs b).cbCalls = [b]) ∧
      (b.Tp = BinlogType.DML →
        (∀ c col, libs.Unmarshal c = Except.ok col → col.Tp ≠ []) →
        (Sync libs b).outcome = Outcome.returned none ∧ (Sync libs b).cbCalls = [b]) ∧
      (∀ n, b.Tp = BinlogType.unknown n →
        (∃ err, (Sync libs b).outcome = Outcome.returned (some err)) ∧
          (Sync libs b).cbCalls = []) := by
  refine ⟨?_, ?_, ?_⟩
  · intro h
    simp [Sync, h]
  · intro h htyped
    have hp := printEvents_returns libs htyped b.GetEvents
    unfold Sync
    rw [h]
    simp only
    generalize printEvents libs b.GetEvents = r at hp
    obtain ⟨p, o⟩ := r
    simp only at hp
    subst hp
    exact ⟨rfl, rfl⟩
  · intro n h
    simp [Sync, h]

/-- C15 fails on the code: `Sync` on a DML binlog whose insert event has a
column that unmarshals and decodes but has an empty `Tp`. The row printer
panics at `col.Tp[0]`; `Sync` does not return nil and `cb` is not
invoked. -/
theorem Sync_untyped_column_panics :
    Sync sampleLibs untypedInsert =
      { printed := { stdout := ["schema: test; table: t; type: Insert"], logged := [] },
        cbCalls := [],
        outcome := Outcome.panicked "index out of range [0] with length 0" } := by
  decide

end Syncer

namespace Relay

/-! ## The relayer -/

theorem WriteBinlog_cur_suffix (r : Relayer) (record : List Nat) :
    r.cur.suffix ≤ (r.WriteBinlog record).1.cur.suffix := by
  unfold Relayer.WriteBinlog
  simp only
  split
  · simp
  · simp

theorem WriteBinlog_keeps (r : Relayer) (record : List Nat) (n : Nat)
    (h : n ∈ (r.cur :: r.old).map (fun s => s.suffix)) :
    n ∈ ((r.WriteBinlog record).1.cur :: (r.WriteBinlog record).1.old).map
      (fun s => s.suffix) := by
  unfold Relayer.WriteBinlog
  simp only
  split
  · simp only [List.map_cons, List.mem_cons] at h ⊢
    rcases h with h | h
    · right; left; exact h
    · right; right; exact h
  · simpa using h

theorem writeAll_keeps (records : List (List Nat)) :
    ∀ (r : Relayer) (n : Nat), n ∈ (r.cur :: r.old).map (fun s => s.suffix) →
      n ≤ r.cur.suffix →
      n ∈ ((r.writeAll records).cur :: (r.writeAll records).old).map (fun s => s.suffix) ∧
        n ≤ (r.writeAll records).cur.suffix := by
  induction records with
  | nil => intro r n h1 h2; exact ⟨h1, h2⟩
  | cons record rest ih =>
    intro r n h1 h2
    exact ih (r.WriteBinlog record).1 n (WriteBinlog_keeps r record n h1)
      (Nat.le_trans h2 (WriteBinlog_cur_suffix r record))

theorem WriteBinlog_pos (r : Relayer) (record : List Nat) :
    (r.WriteBinlog record).2.Suffix ∈
        ((r.WriteBinlog record).1.cur :: (r.WriteBinlog record).1.old).map
          (fun s => s.suffix) ∧
      (r.WriteBinlog record).2.Suffix ≤ (r.WriteBinlog record).1.cur.suffix := by
  unfold Relayer.WriteBinlog
  simp only
  split <;> simp

theorem GCBinlog_names (r : Relayer) (pos : Position) (h : pos.Suffix ≤ r.cur.suffix) :
    ReadBinlogNames (r.GCBinlog pos) =
      (ReadBinlogNames r).filter (fun n => decide (pos.Suffix ≤ n)) := by
  unfold ReadBinlogNames Relayer.GCBinlog
  simp only [List.map_cons, List.reverse_cons, List.filter_append, List.filter_reverse,
    List.filter_cons, List.filter_nil, decide_eq_true_eq, h, if_true, List.filter_map]
  rfl

/-- C11: for every relay position `pos` returned by `WriteBinlog`, and
whatever is written afterwards, after `GCBinlog(pos)` the names
`ReadBinlogNames` lists are those listed before with a suffix greater than
or equal to `pos.Suffix`: every segment with a smaller suffix is gone, and
every other one, the one containing `pos` included, is still listed. With a
segment cap of 10 bytes: after one DDL there are 2 files and GC at its
position leaves 2; after another there are 3 and GC at its position leaves
2. -/
theorem GCBinlog_from_pos (r : Relayer) (record : List Nat) (later : List (List Nat)) :
    ReadBinlogNames (((r.WriteBinlog record).1.writeAll later).GCBinlog
          (r.WriteBinlog record).2) =
        (ReadBinlogNames ((r.WriteBinlog record).1.writeAll later)).filter
          (fun n => decide ((r.WriteBinlog record).2.Suffix ≤ n)) ∧
      (r.WriteBinlog record).2.Suffix ∈
        ReadBinlogNames (((r.WriteBinlog record).1.writeAll later).GCBinlog
          (r.WriteBinlog record).2) ∧
      (∀ n, n ∈ ReadBinlogNames (((r.WriteBinlog record).1.writeAll later).GCBinlog
          (r.WriteBinlog record).2) → (r.WriteBinlog record).2.Suffix ≤ n) ∧
      (∀ n, n ∈ ReadBinlogNames ((r.WriteBinlog record).1.writeAll later) →
        (r.WriteBinlog record).2.Suffix ≤ n →
        n ∈ ReadBinlogNames (((r.WriteBinlog record).1.writeAll later).GCBinlog
          (r.WriteBinlog record).2)) ∧
      ((ReadBinlogNames ((NewRelayer 10).WriteBinlog sampleDDL).1).length = 2 ∧
        (ReadBinlogNames (((NewRelayer 10).WriteBinlog sampleDDL).1.GCBinlog
          ((NewRelayer 10).WriteBinlog sampleDDL).2)).length = 2 ∧
        (ReadBinlogNames
          ((((NewRelayer 10).WriteBinlog sampleDDL).1.GCBinlog
            ((NewRelayer 10).WriteBinlog sampleDDL).2).WriteBinlog sampleDDL).1).length = 3 ∧
        (ReadBinlogNames
          (((((NewRelayer 10).WriteBinlog sampleDDL).1.GCBinlog
            ((NewRelayer 10).WriteBinlog sampleDDL).2).WriteBinlog sampleDDL).1.GCBinlog
            ((((NewRelayer 10).WriteBinlog sampleDDL).1.GCBinlog
              ((NewRelayer 10).WriteBinlog sampleDDL).2).WriteBinlog sampleDDL).2)).length
          = 2) := by
  obtain ⟨hmem0, hle0⟩ := WriteBinlog_pos r record
  obtain ⟨hmem, hle⟩ := writeAll_keeps later _ _ hmem0 hle0
  have hnames := GCBinlog_names _ _ hle
  have hmem2 : (r.WriteBinlog record).2.Suffix ∈
      ReadBinlogNames ((r.WriteBinlog record).1.writeAll later) := by
    unfold ReadBinlogNames
    exact List.mem_reverse.mpr hmem
  refine ⟨hnames, ?_, ?_, ?_, ?_⟩
  · rw [hnames, List.mem_filter]
    exact ⟨hmem2, by simp⟩
  · intro n hn
    rw [hnames, List.mem_filter] at hn
    simpa using hn.2
  · intro n hn hge
    rw [hnames, List.mem_filter]
    exact ⟨hn, by simpa using hge⟩
  · decide

end Relay

namespace Storage

/-! ## The encoded length of a record -/

theorem assignPointers_length (cd : Codec) (suffix : Nat) :
    ∀ (batch : List request) (off : Nat),
      (∀ r, r ∈ batch → Encodable cd r.payload) →
      ∀ r, r ∈ assignPointers cd suffix off batch →
        r.valuePointer.length = cd.headerLength + r.payload.length := by
  intro batch
  induction batch with
  | nil => intro off _ r hr; simp [assignPointers] at hr
  | cons b bs ih =>
    intro off henc r hr
    simp only [assignPointers, List.mem_cons] at hr
    rcases hr with h1 | h1
    · subst h1
      exact Nat.mod_eq_of_lt (henc b (List.mem_cons_self _ _)).1
    · exact ih _ (fun x hx => henc x (List.mem_cons_of_mem _ hx)) r h1

theorem noSpacePayload_length : noSpacePayload.length = 1024 :=
  List.length_replicate 1024 0

/-- C12: for every record written to the value log with the header of the
spec (`magic:u32 | payload_len:u32 | crc32:u32`), its encoded length, the
length stored in its value pointer and the number of bytes of its encoding,
equals 12 plus the payload length: the record header is exactly 12 bytes,
so a 1024-byte payload encodes to 1036 bytes. -/
theorem valuePointer_length (cd : Codec) (vlog : valueLog) (batch : List request)
    (fault : Option VlogError) (canCreate : Bool) (hspec : cd.lenWidth = 4)
    (hb : ∀ r, r ∈ batch → Encodable cd r.payload)
    (hok : (vlog.write cd batch fault canCreate).2.2 = none) :
    cd.headerLength = 12 ∧
      (∀ r, r ∈ (vlog.write cd batch fault canCreate).2.1 →
        r.valuePointer.length = 12 + r.payload.length ∧
          (encodeRecord cd r.payload).length = 12 + r.payload.length ∧
          (r.payload.length = 1024 → r.valuePointer.length = 1036)) ∧
      (∀ p : List Nat, p.length = 1024 → (encodeRecord cd p).length = 1036) := by
  have hf : fault = none := by
    cases fault with
    | none => rfl
    | some e => simp [valueLog.write] at hok
  subst hf
  have h12 : cd.headerLength = 12 := by
    unfold Codec.headerLength
    omega
  refine ⟨h12, ?_, ?_⟩
  · intro r hr
    have h := assignPointers_length cd _ batch _ hb r hr
    rw [h12] at h
    refine ⟨h, by rw [encodeRecord_length, h12], ?_⟩
    intro hlen
    omega
  · intro p hp
    rw [encodeRecord_length, h12, hp]

/-- Witness of `valuePointer_length`: the 1024-byte request of
`TestNoSpace` written to a fresh log. -/
theorem valuePointer_length_witness :
    sampleCodec.headerLength = 12 ∧
      (∀ r, r ∈ (noSpaceLog.write sampleCodec [noSpaceRequest] none true).2.1 →
        r.valuePointer.length = 12 + r.payload.length ∧
          (encodeRecord sampleCodec r.payload).length = 12 + r.payload.length ∧
          (r.payload.length = 1024 → r.valuePointer.length = 1036)) ∧
      (∀ p : List Nat, p.length = 1024 → (encodeRecord sampleCodec p).length = 1036) :=
  valuePointer_length sampleCodec noSpaceLog [noSpaceRequest] none true rfl
    (by
      intro r hr
      simp only [List.mem_singleton] at hr
      subst hr
      have hp : noSpaceRequest.payload = noSpacePayload := rfl
      unfold Encodable
      rw [hp, noSpacePayload_length]
      exact ⟨by decide, by decide⟩)
    rfl

end Storage
